import Mathlib

/-!
Verification of the offline audio-analysis pipeline of the
Realtime-Spectrum-Analyzer repository.

The JavaScript sources are shallowly embedded:

* JS `number` data values are embedded as exact rationals (`ℚ`) or, for the
  stages whose values pass through transcendental functions (`Math.cos`,
  `Math.sqrt`, `Math.log2`), as real numbers (`ℝ`); stages that use only
  field operations and comparisons are stated over an arbitrary
  `LinearOrderedField` so that the same definition serves both the real
  pipeline and decidable rational test points.
* `Float32Array` / `Array` values are embedded as `List`s; a JS read `a[i]`
  is `List.getD i 0` (out-of-range reads never occur on the paths the
  theorems below exercise; where they could occur in JS they are noted at
  the definition), and a write is `List.set`, which like a `Float32Array`
  store ignores out-of-range indices.
* JS integer bit operations (`& 0x7f`, `>> 7`, `<< 8`) act on values that
  stay far below `2^31` on every path covered here, so they are embedded as
  the corresponding exact `Nat` arithmetic (`% 128`, `/ 128`, `* 256`);
  each site is annotated.
* fallible code (`throw new TypeError`) is embedded with `Except`.
-/

namespace RSA

/-- Embedding of `clamp(value, min, max)` from `transcription.js`:
`Math.min(max, Math.max(min, value))`. -/
def clamp {α : Type} [LinearOrder α] (value minV maxV : α) : α :=
  min maxV (max minV value)

/-- JS `x || d` for a possibly-absent numeric option: `undefined` and the
falsy number `0` both fall back to the default `d`. -/
def jsOrDefault {α : Type} [LinearOrderedField α] (x : Option α) (d : α) : α :=
  match x with
  | none => d
  | some v => if v = 0 then d else v

/-! ### MIDI variable-length quantities (`midi_export.js`, `encodeVarLen`)

The JS encoder first packs the 7-bit groups of `value` into the integer
`buffer` (low byte = most-significant group, `0x80` tagged on every group
but the first), then emits `buffer` byte by byte.  For `value < 2^28` the
packed `buffer` stays below `2^31`, so the 32-bit JS operations coincide
with exact `Nat` arithmetic: `value & 0x7f` is `value % 128`,
`value >>= 7` is `value / 128`, `buffer <<= 8; buffer |= g` is
`buffer * 256 + g` (the low 8 bits are zero after the shift), and
`(g & 0x7f) | 0x80` is `g % 128 + 128`. -/

/-- The first loop of `encodeVarLen`:
`while ((value >>= 7) > 0) { buffer <<= 8; buffer |= (value & 0x7f) | 0x80; }`. -/
def vlqBuild (value buffer : ℕ) : ℕ :=
  if 0 < value / 128 then
    vlqBuild (value / 128) (buffer * 256 + (value / 128 % 128 + 128))
  else buffer
termination_by value
decreasing_by
  exact Nat.div_lt_self (by omega) (by omega)

/-- The second loop of `encodeVarLen`:
`bytes.push(buffer & 0xff); if (buffer & 0x80) buffer >>= 8; else break;`.
`buffer & 0x80` tests bit 7, i.e. `128 ≤ buffer % 256`. -/
def vlqEmit (buffer : ℕ) : List ℕ :=
  if 128 ≤ buffer % 256 then buffer % 256 :: vlqEmit (buffer / 256)
  else [buffer % 256]
termination_by buffer
decreasing_by
  exact Nat.div_lt_self (by omega) (by omega)

/-- Embedding of `encodeVarLen(value)` from `midi_export.js`: the initial buffer is
`value & 0x7f`. -/
def encodeVarLen (value : ℕ) : List ℕ :=
  vlqEmit (vlqBuild value (value % 128))

/-- Spec-side definition (from §4.9 / the glossary of the spec): the 7-bit
groups of `value` above the lowest one, most-significant first, each with
the continuation bit `0x80` set. -/
def vlqSpecHigh (v : ℕ) : List ℕ :=
  if v = 0 then [] else vlqSpecHigh (v / 128) ++ [v % 128 + 128]
termination_by v
decreasing_by
  exact Nat.div_lt_self (by omega) (by omega)

/-- Spec-side definition of the MIDI variable-length-quantity encoding:
7 bits per byte, most-significant group first, continuation bit on every
byte but the last; `0` encodes as the single byte `0x00`. -/
def vlqSpec (value : ℕ) : List ℕ :=
  vlqSpecHigh (value / 128) ++ [value % 128]

/-! ### Preprocessor (`preprocess.js`) -/

variable {α : Type} [LinearOrderedField α]

/-- Embedding of `toMono(audioBuffer)`: `new Float32Array(audioBuffer)` — a fresh copy
with the same sample values.  At the value level this is the identity; the
freshness of the copy is modelled separately by the store-passing embedding
below. -/
def toMono (audioBuffer : List α) : List α :=
  audioBuffer

/-- The peak-scan loop of `normalizePeak`: largest absolute sample, starting
from `0`. -/
def normalizePeakScan (audioBuffer : List α) : α :=
  audioBuffer.foldl (fun peak v => if peak < |v| then |v| else peak) 0

/-- Embedding of `normalizePeak(audioBuffer, targetPeak = 0.98)` from `preprocess.js`. -/
def normalizePeak (audioBuffer : List α) (targetPeak : α) : List α :=
  let peak := normalizePeakScan audioBuffer
  if peak = 0 then audioBuffer
  else audioBuffer.map (fun v => v * (targetPeak / peak))

/-- Spec-side "maximum absolute sample" of a buffer (§4.1 of the spec). -/
def maxAbsSample (audioBuffer : List α) : α :=
  audioBuffer.foldl (fun m v => max m |v|) 0

/-- Embedding of `runHPSSStub(normalizedBuffer)`: placeholder harmonic/percussive split —
a copy of the input as "harmonic", silence of equal length as "percussive",
plus a warning. -/
def runHPSSStub (normalizedBuffer : List α) :
    List α × List α × String :=
  (normalizedBuffer, List.replicate normalizedBuffer.length 0,
    "HPSS requested but not implemented yet. Using normalized mono audio as harmonic source.")

/-- Result record of `preprocessAudio`. -/
structure PreprocessResult (α : Type) where
  monoBuffer : List α
  normalizedBuffer : List α
  harmonicBuffer : Option (List α)
  percussiveBuffer : Option (List α)
  warnings : List String

/-- Embedding of `preprocessAudio(audioBuffer, {doHPSS})` from `preprocess.js`; the JS
default `targetPeak = 0.98` is `49/50`. -/
def preprocessAudio (audioBuffer : List α) (doHPSS : Bool) : PreprocessResult α :=
  let monoBuffer := toMono audioBuffer
  let normalizedBuffer := normalizePeak monoBuffer (49/50)
  if doHPSS then
    let hpss := runHPSSStub normalizedBuffer
    { monoBuffer := monoBuffer
      normalizedBuffer := normalizedBuffer
      harmonicBuffer := some hpss.1
      percussiveBuffer := some hpss.2.1
      warnings := [hpss.2.2] }
  else
    { monoBuffer := monoBuffer
      normalizedBuffer := normalizedBuffer
      harmonicBuffer := none
      percussiveBuffer := none
      warnings := [] }

/-! ### Note events and the melody/harmony splitter (`melody_harmony_split.js`) -/

/-- Embedding of `NoteEvent` of `types.js`.  `velocity` is optional. -/
structure NoteEvent (α : Type) where
  pitchMidi : α
  startSec : α
  durationSec : α
  confidence : α
  velocity : Option α
deriving DecidableEq

/-- Embedding of `overlaps(startA, durationA, startB, durationB)` from
`melody_harmony_split.js`. -/
def overlaps [DecidableEq α] (startA durationA startB durationB : α) : Bool :=
  decide (startA < startB + durationB) && decide (startB < startA + durationA)

/-- Options consumed by `splitMelodyHarmony`. -/
structure SplitOptions (α : Type) where
  timeResolutionMs : α
  extractMelody : Bool
  extractHarmony : Bool

/-- Result of `splitMelodyHarmony`. -/
structure SplitResult (α : Type) where
  melodyNotes : List (NoteEvent α)
  harmonyNotes : List (NoteEvent α)
deriving DecidableEq

/-- One frame of the statistics sweep of `splitMelodyHarmony`: every note
overlapping the frame gains an active-frame count, and the top voice of the
frame (highest pitch, ties by strictly higher confidence) gains a top-voice
count.  `stats` is the per-note `(activeFrames, topFrames)` list, in note
order. -/
def splitFrameStep (notes : List (NoteEvent α)) (frameSec : α)
    (stats : List (ℕ × ℕ)) (k : ℕ) : List (ℕ × ℕ) :=
  let frameStart : α := k * frameSec
  let frameNotes := ((notes.enum).filter (fun p =>
    overlaps p.2.startSec p.2.durationSec frameStart frameSec)).map Prod.fst
  let statsA := frameNotes.foldl
    (fun s i => s.set i ((s.getD i (0, 0)).1 + 1, (s.getD i (0, 0)).2)) stats
  match frameNotes with
  | [] => statsA
  | first :: rest =>
    let melodyIndex := rest.foldl (fun best i =>
      let candidate := notes.getD i ⟨0, 0, 0, 0, none⟩
      let melody := notes.getD best ⟨0, 0, 0, 0, none⟩
      if candidate.pitchMidi > melody.pitchMidi ∨
          (candidate.pitchMidi = melody.pitchMidi ∧
            candidate.confidence > melody.confidence) then i else best) first
    statsA.set melodyIndex
      ((statsA.getD melodyIndex (0, 0)).1, (statsA.getD melodyIndex (0, 0)).2 + 1)

/-- The final classification loop of `splitMelodyHarmony`: a note is melody
iff its top-voice ratio is at least `0.55 = 11/20` and its pitch at least
`55`; melody notes are kept only under `extractMelody`, all other notes only
under `extractHarmony`. -/
def splitClassifyStep (options : SplitOptions α)
    (acc : List (NoteEvent α) × List (NoteEvent α))
    (p : NoteEvent α × (ℕ × ℕ)) : List (NoteEvent α) × List (NoteEvent α) :=
  let note := p.1
  let topRatio : α := if 0 < p.2.1 then (p.2.2 : α) / (p.2.1 : α) else 0
  let isMelody := 11/20 ≤ topRatio ∧ 55 ≤ note.pitchMidi
  if isMelody ∧ options.extractMelody = true then (acc.1 ++ [note], acc.2)
  else if options.extractHarmony = true then (acc.1, acc.2 ++ [note])
  else acc

/-- See `splitClassifyStep` for the per-note classification. -/
def splitClassify (options : SplitOptions α)
    (pairs : List (NoteEvent α × (ℕ × ℕ))) :
    List (NoteEvent α) × List (NoteEvent α) :=
  pairs.foldl (splitClassifyStep options) ([], [])

/-- Embedding of `splitMelodyHarmony(notes, options)` from `melody_harmony_split.js`.
The JS frame loop `for (frameStart = 0; frameStart <= maxEndSec;
frameStart += frameSec)` visits exactly the frame starts `k * frameSec` for
`0 ≤ k ≤ ⌊maxEndSec / frameSec⌋` (`frameSec ≥ 0.01 > 0`), which is how it
is written here. -/
def splitMelodyHarmony [FloorRing α] (notes : List (NoteEvent α))
    (options : SplitOptions α) : SplitResult α :=
  if notes.isEmpty then { melodyNotes := [], harmonyNotes := [] }
  else
    let frameSec : α := max (1/100) (options.timeResolutionMs / 1000)
    let maxEndSec : α := notes.foldl
      (fun m n => if m < n.startSec + n.durationSec then n.startSec + n.durationSec else m) 0
    let numFrames : ℕ := (⌊maxEndSec / frameSec⌋).toNat + 1
    let stats0 : List (ℕ × ℕ) := notes.map (fun _ => (0, 0))
    let stats := (List.range numFrames).foldl (splitFrameStep notes frameSec) stats0
    let cls := splitClassify options (notes.zip stats)
    { melodyNotes := cls.1, harmonyNotes := cls.2 }

/-! ### Pitch projection (`transcription.js`) -/

/-- Embedding of `frequencyToMidi(frequencyHz)` from `transcription.js`:
`Math.round(69 + 12 * Math.log2(frequencyHz / 440))`, for an exact rational
frequency.  Writing `q = frequencyHz / 440` and using that
`round x = ⌊x + 1/2⌋` rounds halves up exactly as `Math.round` does,
`round (69 + 12·log₂ q) = ⌊(log₂ (q^24) + 139) / 2⌋`, and the inner floor
of the real logarithm is `Int.log 2 (q^24)`; the outer floored halving is
`Int.fdiv · 2`.  `frequencyToMidi_eq_round` below proves this definition
equal to the rounded real-logarithm formula for every positive frequency. -/
def frequencyToMidi (frequencyHz : ℚ) : ℤ :=
  (Int.log 2 ((frequencyHz / 440) ^ (24 : ℕ)) + 139).fdiv 2

/-- Result of `spectrumToChromaAndMidiEnergy`: the 12-slot chroma vector and
the 128-slot per-semitone energy vector. -/
structure ChromaMidi (α : Type) where
  chroma : List α
  midiEnergy : List α
deriving DecidableEq

/-- The bin-accumulation loop of `spectrumToChromaAndMidiEnergy`
(`MIN_NOTE_MIDI = 36`, `MAX_NOTE_MIDI = 96`): bins outside
`[27.5 Hz, 5000 Hz]`, and bins whose rounded semitone falls outside
`[36, 96]`, are skipped.  `((midi % 12) + 12) % 12` is the JS pitch-class
wrap; on `ℤ` with `midi ≥ 0` it equals `midi % 12`. -/
def chromaAccumStep (spectrum : List α) (binFrequenciesHz : List ℚ)
    (state : List α × List α) (bin : ℕ) : List α × List α :=
  let frequency := binFrequenciesHz.getD bin 0
  if frequency < 27.5 ∨ frequency > 5000 then state
  else
    let midi := frequencyToMidi frequency
    if midi < 36 ∨ midi > 96 then state
    else
      let energy := spectrum.getD bin 0
      let pitchClass := (((midi % 12) + 12) % 12).toNat
      (state.1.set pitchClass (state.1.getD pitchClass 0 + energy),
       state.2.set midi.toNat (state.2.getD midi.toNat 0 + energy))

/-- The chroma peak-normalization at the end of
`spectrumToChromaAndMidiEnergy`: divide by the largest slot if positive. -/
def chromaPeakNormalize (chroma : List α) : List α :=
  let chromaPeak := chroma.foldl (fun p v => if p < v then v else p) 0
  if 0 < chromaPeak then chroma.map (fun v => v / chromaPeak) else chroma

/-- Embedding of `spectrumToChromaAndMidiEnergy(spectrum, binFrequenciesHz)` from
`transcription.js`.  The JS loop runs `bin = 1 .. spectrum.length - 1`,
i.e. over `List.range' 1 (spectrum.length - 1)`. -/
def spectrumToChromaAndMidiEnergy (spectrum : List α)
    (binFrequenciesHz : List ℚ) : ChromaMidi α :=
  let state := (List.range' 1 (spectrum.length - 1)).foldl
    (chromaAccumStep spectrum binFrequenciesHz)
    (List.replicate 12 0, List.replicate 128 0)
  { chroma := chromaPeakNormalize state.1, midiEnergy := state.2 }

/-- Claim-side variant of `spectrumToChromaAndMidiEnergy` (C4's reading of
§4.3): identical except that an in-band bin whose rounded semitone falls
outside `[36, 96]` has its semitone clamped into `[36, 96]` and its energy
kept, instead of being skipped. -/
def chromaAccumStepClamped (spectrum : List α) (binFrequenciesHz : List ℚ)
    (state : List α × List α) (bin : ℕ) : List α × List α :=
  let frequency := binFrequenciesHz.getD bin 0
  if frequency < 27.5 ∨ frequency > 5000 then state
  else
    let midi := clamp (frequencyToMidi frequency) 36 96
    let energy := spectrum.getD bin 0
    let pitchClass := (((midi % 12) + 12) % 12).toNat
    (state.1.set pitchClass (state.1.getD pitchClass 0 + energy),
     state.2.set midi.toNat (state.2.getD midi.toNat 0 + energy))

/-- Claim-side variant of `spectrumToChromaAndMidiEnergy` built on the
clamped accumulation step. -/
def spectrumToChromaClamped (spectrum : List α)
    (binFrequenciesHz : List ℚ) : ChromaMidi α :=
  let state := (List.range' 1 (spectrum.length - 1)).foldl
    (chromaAccumStepClamped spectrum binFrequenciesHz)
    (List.replicate 12 0, List.replicate 128 0)
  { chroma := chromaPeakNormalize state.1, midiEnergy := state.2 }

/-- The keep condition of the accumulation loop of
`spectrumToChromaAndMidiEnergy`: the bin's center frequency lies in
`[27.5 Hz, 5000 Hz]` and its rounded semitone lies in `[36, 96]`. -/
def chromaBinKeeps (binFrequenciesHz : List ℚ) (bin : ℕ) : Prop :=
  (27.5 ≤ binFrequenciesHz.getD bin 0 ∧ binFrequenciesHz.getD bin 0 ≤ 5000) ∧
    36 ≤ frequencyToMidi (binFrequenciesHz.getD bin 0) ∧
    frequencyToMidi (binFrequenciesHz.getD bin 0) ≤ 96

instance (binFrequenciesHz : List ℚ) (bin : ℕ) :
    Decidable (chromaBinKeeps binFrequenciesHz bin) := by
  unfold chromaBinKeeps
  infer_instance

/-! ### Note tracker (`transcription.js`, `trackNoteEvents`) -/

/-- The mutable per-semitone record kept in the `active` map of
`trackNoteEvents`. -/
structure ActiveNote (α : Type) where
  pitchMidi : ℕ
  startSec : α
  durationSec : α
  confidenceSum : α
  frameCount : ℕ
deriving DecidableEq

/-- State of the tracker loop: emitted notes so far, plus the `active` JS
`Map` as an insertion-ordered association list keyed by semitone (JS `Map`
preserves insertion order; `Map.set` on an existing key keeps its
position, which the in-place update here reproduces). -/
structure TrackState (α : Type) where
  notes : List (NoteEvent α)
  active : List (ℕ × ActiveNote α)
deriving DecidableEq

/-- The frame-peak scan of `trackNoteEvents`: largest energy over semitones
`36..96` (`List.range' 36 61`), starting from `0`. -/
def framePeakOf (frameEnergy : List α) : α :=
  (List.range' 36 61).foldl
    (fun peak midi =>
      if peak < frameEnergy.getD midi 0 then frameEnergy.getD midi 0 else peak) 0

/-- Finalization of one active record into a `NoteEvent`
(`confidence = clamp(confidenceSum / frameCount, 0, 1)`,
`velocity = Math.round(50 + 70 * confidence)`). -/
def finalizeNote [FloorRing α] (event : ActiveNote α) : NoteEvent α :=
  { pitchMidi := (event.pitchMidi : α)
    startSec := event.startSec
    durationSec := event.durationSec
    confidence := clamp (event.confidenceSum / (event.frameCount : α)) 0 1
    velocity :=
      some ((round ((50 : α) + 70 * clamp (event.confidenceSum / (event.frameCount : α)) 0 1) : ℤ) : α) }

/-- The activation sweep of one tracker frame: for each semitone `36..96`
at-or-above `threshold` (and with a non-zero frame peak), either create a
fresh active record (duration one frame) or extend the existing one.
Returns the set of semitones active this frame (in sweep order) together
with the updated `active` map. -/
def trackActivate (frameDurationSec : α) (frameTime : α)
    (frameEnergy : List α) (peak threshold : α)
    (active : List (ℕ × ActiveNote α)) : List ℕ × List (ℕ × ActiveNote α) :=
  (List.range' 36 61).foldl
    (fun state midi =>
      let energy := frameEnergy.getD midi 0
      if energy < threshold ∨ peak = 0 then state
      else
        let confidence := clamp (energy / peak) 0 1
        let activeNow := state.1 ++ [midi]
        match state.2.lookup midi with
        | none =>
          (activeNow, state.2 ++ [(midi,
            { pitchMidi := midi
              startSec := frameTime
              durationSec := frameDurationSec
              confidenceSum := confidence
              frameCount := 1 })])
        | some _ =>
          (activeNow, state.2.map (fun p =>
            if p.1 = midi then
              (p.1, { p.2 with
                durationSec := p.2.durationSec + frameDurationSec
                confidenceSum := p.2.confidenceSum + confidence
                frameCount := p.2.frameCount + 1 })
            else p)))
    ([], active)

/-- One frame of `trackNoteEvents`: threshold is `45% = 9/20` of the frame
peak; semitones that stop being active are finalized (emitted only if their
accumulated duration reaches `minDurationSec`) and removed from the map. -/
def trackStep [FloorRing α] (frameDurationSec minDurationSec : α)
    (st : TrackState α) (frameEnergy : List α) (frameTime : α) : TrackState α :=
  let peak := framePeakOf frameEnergy
  let threshold := peak * (9/20)
  let act := trackActivate frameDurationSec frameTime frameEnergy peak threshold st.active
  let activeNow := act.1
  let active := act.2
  let finalized := active.filter (fun p => ¬ p.1 ∈ activeNow)
  { notes := finalized.foldl
      (fun acc p =>
        if minDurationSec ≤ p.2.durationSec then acc ++ [finalizeNote p.2] else acc)
      st.notes
    active := active.filter (fun p => p.1 ∈ activeNow) }

/-- Comparator of the final `notes.sort` of `trackNoteEvents`
(`a.startSec - b.startSec || a.pitchMidi - b.pitchMidi`): `a` may precede
`b` iff its start is earlier, or equal with pitch not larger.  JS `sort` is
stable, as is `List.mergeSort`. -/
def noteLE (a b : NoteEvent α) : Bool :=
  decide (a.startSec < b.startSec) ||
    (decide (a.startSec = b.startSec) && decide (a.pitchMidi ≤ b.pitchMidi))

/-- Embedding of `trackNoteEvents(midiEnergyFrames, frameTimesSec, options)` from
`transcription.js`.  Frame `i` reads its start time from
`frameTimesSec[i]` (the pipeline always passes lists of equal length). -/
def trackNoteEvents [FloorRing α] (midiEnergyFrames : List (List α))
    (frameTimesSec : List α) (timeResolutionMs minNoteDurationMs : α) :
    List (NoteEvent α) :=
  let frameDurationSec := timeResolutionMs / 1000
  let minDurationSec := minNoteDurationMs / 1000
  let final := (midiEnergyFrames.enum).foldl
    (fun st p => trackStep frameDurationSec minDurationSec st p.2
      (frameTimesSec.getD p.1 0))
    { notes := [], active := [] }
  let notes := final.active.foldl
    (fun acc p =>
      if minDurationSec ≤ p.2.durationSec then acc ++ [finalizeNote p.2] else acc)
    final.notes
  notes.mergeSort noteLE

/-! ### Chord templates and inference (`chords.js`) -/

/-- Embedding of `NOTE_NAMES` from `chords.js`. -/
def NOTE_NAMES : List String :=
  ["C", "C#", "D", "D#"] ++ ["E", "F", "F#", "G"] ++ ["G#", "A", "A#", "B"]

/-- One entry of `CHORD_TEMPLATES`. -/
structure ChordTemplate where
  quality : String
  intervals : List ℕ
  nameTail : String

/-- Embedding of `CHORD_TEMPLATES` from `chords.js` (`nameTail` is the display-name
tail appended to the root note name). -/
def CHORD_TEMPLATES : List ChordTemplate :=
  [⟨"maj", [0, 4, 7], ""⟩,
   ⟨"min", [0, 3, 7], "m"⟩,
   ⟨"dim", [0, 3, 6], "dim"⟩,
   ⟨"aug", [0, 4, 8], "aug"⟩,
   ⟨"sus2", [0, 2, 7], "sus2"⟩,
   ⟨"sus4", [0, 5, 7], "sus4"⟩,
   ⟨"7", [0, 4, 7, 10], "7"⟩,
   ⟨"maj7", [0, 4, 7, 11], "maj7"⟩,
   ⟨"min7", [0, 3, 7, 10], "m7"⟩,
   ⟨"hdim7", [0, 3, 6, 10], "m7b5"⟩]

/-- Embedding of `normalize(vector)` from `chords.js`: clamp negatives to zero and scale
to sum 1, or all zeros if the clamped sum is zero. -/
def normalizeChroma (vector : List α) : List α :=
  let sum := vector.foldl (fun acc value => acc + max 0 value) 0
  if sum = 0 then vector.map (fun _ => 0)
  else vector.map (fun value => max 0 value / sum)

/-- A scored chord candidate inside `scoreChordTemplates`. -/
structure ChordCandidate (α : Type) where
  rootPitchClass : ℕ
  quality : String
  label : String
  score : α

/-- Result of `scoreChordTemplates`. -/
structure ScoredChord (α : Type) where
  rootPitchClass : ℕ
  quality : String
  label : String
  confidence : α
  scores : List (String × α)

/-- Score of one `(root, template)` candidate in `scoreChordTemplates`:
matched chord-tone energy minus `0.35 = 7/20` of the non-chord-tone
energy. -/
def chordCandidateScore (normalized : List α) (root : ℕ)
    (template : ChordTemplate) : α :=
  let pitchClassSet := template.intervals.map (fun i => (root + i) % 12)
  let matchE := template.intervals.foldl
    (fun m i => m + normalized.getD ((root + i) % 12) 0) 0
  let penalty := (List.range 12).foldl
    (fun p pc => if ¬ pc ∈ pitchClassSet then p + normalized.getD pc 0 * (7/20) else p) 0
  matchE - penalty

/-- The best/second-best tracking of `scoreChordTemplates`, folded over the
candidates in JS iteration order (roots `0..11` outer, templates inner). -/
def chordBestFold (candidates : List (ChordCandidate α)) :
    Option (ChordCandidate α) × Option (ChordCandidate α) :=
  candidates.foldl
    (fun st c =>
      match st.1 with
      | none => (some c, st.2)
      | some b =>
        if b.score < c.score then (some c, some b)
        else
          match st.2 with
          | none => (some b, some c)
          | some s => if s.score < c.score then (some b, some c) else (some b, some s))
    (none, none)

/-- Embedding of `scoreChordTemplates(chroma)` from `chords.js`
(`confidence = clamp(margin / 0.2 + max(0, best.score), 0, 1)`;
`0.2 = 1/5`). -/
def scoreChordTemplates (chroma : List α) : ScoredChord α :=
  let normalized := normalizeChroma chroma
  let candidates := (List.range 12).flatMap (fun root =>
    CHORD_TEMPLATES.map (fun template =>
      ({ rootPitchClass := root
         quality := template.quality
         label := NOTE_NAMES.getD root "" ++ template.nameTail
         score := chordCandidateScore normalized root template } : ChordCandidate α)))
  let scores := candidates.map (fun c => (c.label, c.score))
  match chordBestFold candidates with
  | (none, _) =>
    { rootPitchClass := 0, quality := "maj", label := "C", confidence := 0,
      scores := scores }
  | (some best, secondBest) =>
    let margin := match secondBest with
      | some s => max 0 (best.score - s.score)
      | none => max 0 best.score
    let confidence := max 0 (min 1 (margin / (1/5) + max 0 best.score))
    { rootPitchClass := best.rootPitchClass
      quality := best.quality
      label := best.label
      confidence := confidence
      scores := scores }

/-- A stabilized window produced inside `inferChordsFromChroma`. -/
structure ChordWindow (α : Type) where
  startSec : α
  endSec : α
  rootPitchClass : ℕ
  quality : String
  label : String
  confidence : α

/-- Embedding of `ChordEvent` of `types.js` (as produced by `inferChordsFromChroma`). -/
structure ChordEvent (α : Type) where
  rootPitchClass : Option ℕ
  quality : String
  label : String
  startSec : α
  durationSec : α
  confidence : α

/-- The run-merging loop of `inferChordsFromChroma`, with the merged list
accumulated in reverse (the JS loop pushes onto the array tail and mutates
its last element in place; here the last element is the head of the
accumulator): a window matching the last label extends it, anything else
starts a new chord event. -/
def mergeChordStep (acc : List (ChordEvent α)) (current : ChordWindow α) :
    List (ChordEvent α) :=
  match acc with
  | previous :: rest =>
    if previous.label = current.label then
      { previous with
        durationSec := current.endSec - previous.startSec
        confidence := max previous.confidence current.confidence } :: rest
    else
      { rootPitchClass := some current.rootPitchClass
        quality := current.quality
        label := current.label
        startSec := current.startSec
        durationSec := current.endSec - current.startSec
        confidence := current.confidence } :: previous :: rest
  | [] =>
    [{ rootPitchClass := some current.rootPitchClass
       quality := current.quality
       label := current.label
       startSec := current.startSec
       durationSec := current.endSec - current.startSec
       confidence := current.confidence }]

/-- See `mergeChordStep` for the loop body. -/
def mergeChordWindows (windows : List (ChordWindow α)) : List (ChordEvent α) :=
  (windows.foldl mergeChordStep []).reverse

/-- One sliding window of `inferChordsFromChroma`: average the chroma of the
frames whose timestamp falls in `[startSec, endSec)`, skip the window if
empty, otherwise score it, stabilize a low-confidence label
(`confidence < 0.45 = 9/20`) to the previous window's label, and append. -/
def chordWindowStep (chromaFrames : List (List α)) (frameTimesSec : List α)
    (windowSec totalDurationSec hopSec : α)
    (state : List (ChordWindow α) × List (List (String × α)))
    (k : ℕ) : List (ChordWindow α) × List (List (String × α)) :=
  let startSec : α := k * hopSec
  let endSec := min totalDurationSec (startSec + windowSec)
  let agg := (frameTimesSec.enum).foldl
    (fun (acc : List α × ℕ) p =>
      if startSec ≤ p.2 ∧ p.2 < endSec then
        (((List.range 12).map (fun pc =>
            acc.1.getD pc 0 + (chromaFrames.getD p.1 []).getD pc 0)), acc.2 + 1)
      else acc)
    (List.replicate 12 0, 0)
  if agg.2 = 0 then state
  else
    let aggregated := agg.1.map (fun v => v / (agg.2 : α))
    let scored := scoreChordTemplates aggregated
    let stabilizedLabel :=
      match state.1.getLast? with
      | some previous => if scored.confidence < 9/20 then previous.label else scored.label
      | none => scored.label
    (state.1 ++ [{ startSec := startSec
                   endSec := endSec
                   rootPitchClass := scored.rootPitchClass
                   quality := scored.quality
                   label := stabilizedLabel
                   confidence := scored.confidence }],
     state.2 ++ [scored.scores])

/-- Embedding of `inferChordsFromChroma(chromaFrames, frameTimesSec, options)` from
`chords.js`.  The JS window loop
`for (startSec = 0; startSec < totalDurationSec; startSec += hopSec)`
visits `k * hopSec` for `0 ≤ k < ⌈totalDurationSec / hopSec⌉`
(`hopSec ≥ 0.1 > 0`).  Constants: `0.02 = 1/50`, `0.03 = 3/100`,
`0.25 = 1/4`, `0.1 = 1/10`. -/
def inferChordsFromChroma [FloorRing α] (chromaFrames : List (List α))
    (frameTimesSec : List α) (windowMs hopMs : Option α) :
    List (ChordEvent α) × List (List (String × α)) :=
  if chromaFrames.isEmpty ∨ frameTimesSec.isEmpty then ([], [])
  else
    let frameStepSec :=
      if 1 < frameTimesSec.length then
        max (1/50) (frameTimesSec.getD 1 0 - frameTimesSec.getD 0 0)
      else (3/100 : α)
    let windowSec := max (1/4) (jsOrDefault windowMs 500 / 1000)
    let hopSec := max (1/10) (jsOrDefault hopMs 250 / 1000)
    let totalDurationSec := frameTimesSec.getD (frameTimesSec.length - 1) 0 + frameStepSec
    let numWindows : ℕ := (⌈totalDurationSec / hopSec⌉).toNat
    let built := (List.range numWindows).foldl
      (chordWindowStep chromaFrames frameTimesSec windowSec totalDurationSec hopSec)
      ([], [])
    (mergeChordWindows built.1, built.2)

/-! ### Spectral engine (`stft.js`) -/

/-- Frame-start positions of the loop in `computeStftFrames`:
`for (frameStart = 0; frameStart < audioBuffer.length; frameStart += hopSize)`
with the trailing
`if (frameStart + frameSize >= audioBuffer.length) break;`.
The recursion is driven by an explicit fuel argument so that it is
structural; `stftFrameStarts` supplies fuel `len + 1`, which is enough for
every positive hop (at most `len` starts lie below `len`).  A zero hop
would loop forever in JS whenever `frameStart + frameSize < len` stays
true; all theorems below assume `0 < hopSize`, as the pipeline guarantees
(`hopSize ≥ 128`). -/
def stftStartsAux (len frameSize hopSize : ℕ) : ℕ → ℕ → List ℕ
  | 0, _ => []
  | fuel + 1, frameStart =>
    if frameStart < len then
      frameStart ::
        (if len ≤ frameStart + frameSize then []
         else stftStartsAux len frameSize hopSize fuel (frameStart + hopSize))
    else []

/-- The list of frame-start positions emitted by `computeStftFrames` on a
buffer of length `len`. -/
def stftFrameStarts (len frameSize hopSize : ℕ) : List ℕ :=
  stftStartsAux len frameSize hopSize (len + 1) 0

/-- Claim-side frame-start set of C3: every hop multiple strictly before
the buffer end, `{0, hop, 2·hop, …} ∩ [0, len)`, in increasing order. -/
def claimedStftStarts (len hopSize : ℕ) : List ℕ :=
  ((List.range len).map (fun k => k * hopSize)).filter (fun p => p < len)

/-- Embedding of `createHannWindow(size)` from `stft.js`:
`0.5 * (1 - cos(2πi / (size - 1)))`. -/
noncomputable def createHannWindow (size : ℕ) : List ℝ :=
  (List.range size).map (fun i =>
    1/2 * (1 - Real.cos ((2 * Real.pi * i) / ((size : ℝ) - 1))))

/-- Swap of two positions of a list (the three-assignment swap in the
bit-reversal loop of `fftInPlace`; both reads happen before the writes). -/
def listSwap {β : Type} [Inhabited β] (l : List β) (i j : ℕ) : List β :=
  (l.set i (l.getD j default)).set j (l.getD i default)

/-- The inner `while (j & bit) { j ^= bit; bit >>= 1; } j ^= bit;` of the
bit-reversal loop.  The extra `bit ≠ 0` conjunct is redundant
(`j &&& 0 = 0` already ends the JS loop) and only makes the recursion
well-founded syntactically. -/
def carryToggle (j bit : ℕ) : ℕ :=
  if bit ≠ 0 ∧ j &&& bit ≠ 0 then carryToggle (j ^^^ bit) (bit / 2)
  else j ^^^ bit
termination_by bit
decreasing_by
  exact Nat.div_lt_self (by omega) (by omega)

/-- The bit-reversal permutation pass of `fftInPlace`: `i` runs over
`1 .. n-1` with the mutable reversal counter `j` threaded through. -/
def fftBitReverse (n : ℕ) (re im : List ℝ) : List ℝ × List ℝ :=
  let res := (List.range' 1 (n - 1)).foldl
    (fun (st : ℕ × List ℝ × List ℝ) i =>
      let j := carryToggle st.1 (n / 2)
      if i < j then (j, listSwap st.2.1 i j, listSwap st.2.2 i j)
      else (j, st.2.1, st.2.2))
    (0, re, im)
  (res.2.1, res.2.2)

/-- One butterfly stage (`len`) of `fftInPlace`: blocks start at
`i = 0, len, 2·len, … < n` (there are `⌈n / len⌉` of them) and each block
folds `k = 0 .. len/2 - 1` with the running twiddle `(wCos, wSin)`
initialized to `(1, 0)`; all reads of a butterfly happen before its
writes. -/
noncomputable def fftButterflyStage (n : ℕ) (st : List ℝ × List ℝ)
    (len : ℕ) : List ℝ × List ℝ :=
  let angle : ℝ := (-2) * Real.pi / len
  let wLenCos := Real.cos angle
  let wLenSin := Real.sin angle
  (List.range ((n + len - 1) / len)).foldl
    (fun st t =>
      let i := t * len
      let inner := (List.range (len / 2)).foldl
        (fun (s : ℝ × ℝ × List ℝ × List ℝ) k =>
          let wCos := s.1
          let wSin := s.2.1
          let re := s.2.2.1
          let im := s.2.2.2
          let uReal := re.getD (i + k) 0
          let uImag := im.getD (i + k) 0
          let vReal := re.getD (i + k + len / 2) 0 * wCos - im.getD (i + k + len / 2) 0 * wSin
          let vImag := re.getD (i + k + len / 2) 0 * wSin + im.getD (i + k + len / 2) 0 * wCos
          (wCos * wLenCos - wSin * wLenSin,
           wCos * wLenSin + wSin * wLenCos,
           (re.set (i + k) (uReal + vReal)).set (i + k + len / 2) (uReal - vReal),
           (im.set (i + k) (uImag + vImag)).set (i + k + len / 2) (uImag - vImag)))
        (1, 0, st.1, st.2)
      (inner.2.2.1, inner.2.2.2))
    st

/-- Embedding of `fftInPlace(real, imag)` from `stft.js`, returned functionally.  The
stage loop `for (len = 2; len <= n; len <<= 1)` visits
`len = 2^1, …, 2^(Nat.log2 n)` (empty for `n < 2`). -/
noncomputable def fftInPlace (re im : List ℝ) : List ℝ × List ℝ :=
  let n := re.length
  ((List.range (Nat.log2 n)).map (fun s => 2 ^ (s + 1))).foldl
    (fftButterflyStage n) (fftBitReverse n re im)

/-- One frame of `computeStftFrames`: window the (zero-padded) samples,
transform, and take the magnitudes of the first `frameSize / 2` bins. -/
noncomputable def stftFrameMagnitudes (audioBuffer window : List ℝ)
    (frameSize frameStart : ℕ) : List ℝ :=
  let real0 := (List.range frameSize).map (fun i =>
    (if frameStart + i < audioBuffer.length then audioBuffer.getD (frameStart + i) 0 else 0) *
      window.getD i 0)
  let imag0 := List.replicate frameSize (0 : ℝ)
  let t := fftInPlace real0 imag0
  (List.range (frameSize / 2)).map (fun i =>
    Real.sqrt (t.1.getD i 0 * t.1.getD i 0 + t.2.getD i 0 * t.2.getD i 0))

/-- Result record of `computeStftFrames`.  Frame times and bin frequencies
are exact rationals (`frameStart / sampleRate` and
`i * sampleRate / frameSize`). -/
structure StftResult where
  spectra : List (List ℝ)
  frameTimesSec : List ℚ
  binFrequenciesHz : List ℚ

/-- Embedding of `computeStftFrames(audioBuffer, {sampleRate, frameSize, hopSize})` from
`stft.js`.  The JS loop pushes one spectrum and one frame time per
iteration and its control depends only on `frameStart`, so it is the map
of the per-frame computation over `stftFrameStarts`. -/
noncomputable def computeStftFrames (audioBuffer : List ℝ) (sampleRate : ℚ)
    (frameSize hopSize : ℕ) : StftResult :=
  let window := createHannWindow frameSize
  let starts := stftFrameStarts audioBuffer.length frameSize hopSize
  { spectra := starts.map (stftFrameMagnitudes audioBuffer window frameSize)
    frameTimesSec := starts.map (fun frameStart => (frameStart : ℚ) / sampleRate)
    binFrequenciesHz := (List.range (frameSize / 2)).map
      (fun i => (i * sampleRate) / frameSize) }

/-! ### Key estimation (`chords.js`, `estimateKeyFromChroma`) -/

/-- Embedding of `MAJOR_PROFILE` (Krumhansl–Schmuckler) from `chords.js`. -/
noncomputable def MAJOR_PROFILE : List ℝ :=
  [6.35, 2.23, 3.48, 2.33, 4.38, 4.09, 2.52, 5.19, 2.39, 3.66, 2.29, 2.88]

/-- Embedding of `MINOR_PROFILE` from `chords.js`. -/
noncomputable def MINOR_PROFILE : List ℝ :=
  [6.33, 2.68, 3.52, 5.38, 2.6, 3.53, 2.54, 4.75, 3.98, 2.69, 3.34, 3.17]

/-- Embedding of `rotate(profile, shift)` from `chords.js`. -/
noncomputable def rotateProfile (profile : List ℝ) (shift : ℕ) : List ℝ :=
  (List.range 12).map (fun i => profile.getD ((i + shift) % 12) 0)

/-- Embedding of `correlation(a, b)` from `chords.js` (Pearson correlation, returning `0`
when either centered sum of squares vanishes). -/
noncomputable def correlation (a b : List ℝ) : ℝ :=
  let meanA := (a.foldl (· + ·) 0) / (a.length : ℝ)
  let meanB := (b.foldl (· + ·) 0) / (b.length : ℝ)
  let sums := (List.range a.length).foldl
    (fun (s : ℝ × ℝ × ℝ) i =>
      let da := a.getD i 0 - meanA
      let db := b.getD i 0 - meanB
      (s.1 + da * db, s.2.1 + da * da, s.2.2 + db * db))
    (0, 0, 0)
  if sums.2.1 = 0 ∨ sums.2.2 = 0 then 0
  else sums.1 / Real.sqrt (sums.2.1 * sums.2.2)

/-- Embedding of `KeyEstimate` of `types.js`. -/
structure KeyEstimate where
  tonicPitchClass : ℕ
  mode : String
  confidence : ℝ
  label : String

/-- The best/second-best tracking of `estimateKeyFromChroma`, folded over
the candidates in JS iteration order (roots `0..11`, major before
minor). -/
noncomputable def keyBestFold (candidates : List KeyEstimate) :
    Option KeyEstimate × Option KeyEstimate :=
  candidates.foldl
    (fun st c =>
      match st.1 with
      | none => (some c, st.2)
      | some b =>
        if b.confidence < c.confidence then (some c, some b)
        else
          match st.2 with
          | none => (some b, some c)
          | some s => if s.confidence < c.confidence then (some b, some c) else (some b, some s))
    (none, none)

/-- The per-pitch-class aggregation loop of `estimateKeyFromChroma`
(`aggregate[pc] += chromaFrames[f][pc] || 0`). -/
noncomputable def aggregateChroma (chromaFrames : List (List ℝ)) : List ℝ :=
  chromaFrames.foldl
    (fun acc frame => (List.range 12).map (fun pc => acc.getD pc 0 + frame.getD pc 0))
    (List.replicate 12 0)

/-- Embedding of `estimateKeyFromChroma(chromaFrames)` from `chords.js`
(`confidence = clamp((best + margin) / 1.2, 0, 1)`; `1.2 = 6/5`). -/
noncomputable def estimateKeyFromChroma (chromaFrames : List (List ℝ)) :
    Option KeyEstimate :=
  if chromaFrames.isEmpty then none
  else
    let normalized := normalizeChroma (aggregateChroma chromaFrames)
    let candidates := (List.range 12).flatMap (fun root =>
      [{ tonicPitchClass := root, mode := "major"
         confidence := correlation normalized (rotateProfile MAJOR_PROFILE root)
         label := NOTE_NAMES.getD root "" ++ " major" },
       { tonicPitchClass := root, mode := "minor"
         confidence := correlation normalized (rotateProfile MINOR_PROFILE root)
         label := NOTE_NAMES.getD root "" ++ " minor" }])
    match keyBestFold candidates with
    | (none, _) => none
    | (some best, second) =>
      let margin := match second with
        | some s => max 0 (best.confidence - s.confidence)
        | none => max 0 best.confidence
      some { tonicPitchClass := best.tonicPitchClass
             mode := best.mode
             confidence := max 0 (min 1 ((best.confidence + margin) / (6/5)))
             label := best.label }

/-! ### Atonality scorer (`atonality.js`) -/

/-- Embedding of `chromaEntropy(chroma)` from `atonality.js`: normalized Shannon entropy
of the clamped distribution, `1` for an all-zero vector. -/
noncomputable def chromaEntropy (chroma : List ℝ) : ℝ :=
  let sum := chroma.foldl (fun acc v => acc + max 0 v) 0
  if sum = 0 then 1
  else
    (chroma.foldl
      (fun entropy v =>
        let p := max 0 v / sum
        if 0 < p then entropy + -(p * Real.logb 2 p) else entropy) 0) / Real.logb 2 12

/-- Embedding of `chordErraticness(chords)` from `atonality.js`: the fraction of
adjacent chord pairs whose labels differ; `0` for fewer than two chords. -/
noncomputable def chordErraticness (chords : List (ChordEvent ℝ)) : ℝ :=
  if chords.length ≤ 1 then 0
  else
    let totalTransitions := chords.length - 1
    let changes := (chords.zip chords.tail).foldl
      (fun c p => if p.1.label ≠ p.2.label then c + 1 else c) (0 : ℕ)
    if 0 < totalTransitions then (changes : ℝ) / (totalTransitions : ℝ) else 0

/-- The `factors` record returned by `scoreAtonality`. -/
structure AtonalityFactors where
  keyInstability : ℝ
  chordMismatch : ℝ
  chordErraticness : ℝ
  chromaEntropy : ℝ

/-- Parameter record of `scoreAtonality`. -/
structure AtonalityParams where
  keyEstimate : Option KeyEstimate
  chords : List (ChordEvent ℝ)
  chromaFrames : List (List ℝ)
  atonalThreshold : ℝ

/-- Result record of `scoreAtonality`; `isAtonal` is the proposition
`atonalScore ≥ atonalThreshold`. -/
structure AtonalityResult where
  atonalScore : ℝ
  isAtonal : Prop
  factors : AtonalityFactors

/-- Embedding of `scoreAtonality(params)` from `atonality.js`.  The weights
`0.35, 0.30, 0.15, 0.20` are `7/20, 3/10, 3/20, 1/5`. -/
noncomputable def scoreAtonality (params : AtonalityParams) : AtonalityResult :=
  let keyInstability := match params.keyEstimate with
    | some k => 1 - k.confidence
    | none => 1
  let chordMismatch :=
    if 0 < params.chords.length then
      1 - (params.chords.foldl (fun s c => s + c.confidence) 0) / (params.chords.length : ℝ)
    else 1
  let erraticness := chordErraticness params.chords
  let entropy :=
    if 0 < params.chromaFrames.length then
      (params.chromaFrames.foldl (fun s f => s + chromaEntropy f) 0) / (params.chromaFrames.length : ℝ)
    else 1
  let atonalScore :=
    max 0 (min 1 (keyInstability * (7/20) + chordMismatch * (3/10) +
      erraticness * (3/20) + entropy * (1/5)))
  { atonalScore := atonalScore
    isAtonal := params.atonalThreshold ≤ atonalScore
    factors :=
      { keyInstability := keyInstability
        chordMismatch := chordMismatch
        chordErraticness := erraticness
        chromaEntropy := entropy } }

/-! ### Options, results and the pipeline (`types.js`, `transcription.js`,
`entrypoint.js`) -/

/-- Embedding of `AnalysisOptions` of `types.js` (numeric fields are exact rationals,
matching their documented plain-number types). -/
structure AnalysisOptions where
  doHPSS : Bool
  extractMelody : Bool
  extractHarmony : Bool
  inferChords : Bool
  detectAtonal : Bool
  timeResolutionMs : ℚ
  minNoteDurationMs : ℚ
  atonalThreshold : ℚ

/-- Embedding of `DEFAULT_ANALYSIS_OPTIONS` from `types.js` (`0.65 = 13/20`). -/
def DEFAULT_ANALYSIS_OPTIONS : AnalysisOptions :=
  { doHPSS := false
    extractMelody := true
    extractHarmony := true
    inferChords := true
    detectAtonal := true
    timeResolutionMs := 30
    minNoteDurationMs := 80
    atonalThreshold := 13/20 }

/-- A `Partial<AnalysisOptions>` caller-supplied options object: every field
optional. -/
structure PartialAnalysisOptions where
  doHPSS : Option Bool := none
  extractMelody : Option Bool := none
  extractHarmony : Option Bool := none
  inferChords : Option Bool := none
  detectAtonal : Option Bool := none
  timeResolutionMs : Option ℚ := none
  minNoteDurationMs : Option ℚ := none
  atonalThreshold : Option ℚ := none

/-- Embedding of `mergeAnalysisOptions(options)` from `types.js`: the object spread
`{...DEFAULT_ANALYSIS_OPTIONS, ...(options || {})}` — present caller keys
override the defaults. -/
def mergeAnalysisOptions (options : Option PartialAnalysisOptions) : AnalysisOptions :=
  match options with
  | none => DEFAULT_ANALYSIS_OPTIONS
  | some o =>
    { doHPSS := o.doHPSS.getD DEFAULT_ANALYSIS_OPTIONS.doHPSS
      extractMelody := o.extractMelody.getD DEFAULT_ANALYSIS_OPTIONS.extractMelody
      extractHarmony := o.extractHarmony.getD DEFAULT_ANALYSIS_OPTIONS.extractHarmony
      inferChords := o.inferChords.getD DEFAULT_ANALYSIS_OPTIONS.inferChords
      detectAtonal := o.detectAtonal.getD DEFAULT_ANALYSIS_OPTIONS.detectAtonal
      timeResolutionMs := o.timeResolutionMs.getD DEFAULT_ANALYSIS_OPTIONS.timeResolutionMs
      minNoteDurationMs := o.minNoteDurationMs.getD DEFAULT_ANALYSIS_OPTIONS.minNoteDurationMs
      atonalThreshold := o.atonalThreshold.getD DEFAULT_ANALYSIS_OPTIONS.atonalThreshold }

/-- Embedding of `AnalysisResult` of `types.js` (the diagnostic `debug` payload — frame
times, raw chroma, warnings — carries no behavior relevant to the claims
and is omitted). -/
structure AnalysisResult where
  notes : List (NoteEvent ℝ)
  melodyNotes : List (NoteEvent ℝ)
  harmonyNotes : List (NoteEvent ℝ)
  chords : List (ChordEvent ℝ)
  keyEstimate : Option KeyEstimate
  atonalScore : ℝ
  isAtonal : Prop

/-- Embedding of `createEmptyAnalysisResult()` from `types.js`
(`atonalScore: 1, isAtonal: true`). -/
def createEmptyAnalysisResult : AnalysisResult :=
  { notes := []
    melodyNotes := []
    harmonyNotes := []
    chords := []
    keyEstimate := none
    atonalScore := 1
    isAtonal := True }

/-- Result record of `transcribeV1`. -/
structure TranscriptionResult where
  notes : List (NoteEvent ℝ)
  chroma : List (List ℝ)
  frameTimesSec : List ℚ

/-- Embedding of `transcribeV1(audioBuffer, sampleRate, options)` from
`transcription.js`: frame size fixed at `2048`; hop size
`Math.max(128, Math.round(sampleRate * timeResolutionMs / 1000))`, which is
always at least `128 > 0`. -/
noncomputable def transcribeV1 (audioBuffer : List ℝ) (sampleRate : ℚ)
    (timeResolutionMs minNoteDurationMs : ℚ) : TranscriptionResult :=
  let frameSize : ℕ := 2048
  let hopSize : ℕ := max 128 (round (sampleRate * timeResolutionMs / 1000)).toNat
  let stft := computeStftFrames audioBuffer sampleRate frameSize hopSize
  let converted := stft.spectra.map
    (fun spectrum => spectrumToChromaAndMidiEnergy spectrum stft.binFrequenciesHz)
  let chroma := converted.map (fun c => c.chroma)
  let midiEnergyFrames := converted.map (fun c => c.midiEnergy)
  { notes := trackNoteEvents midiEnergyFrames
      (stft.frameTimesSec.map (fun t => (t : ℝ)))
      (timeResolutionMs : ℝ) (minNoteDurationMs : ℝ)
    chroma := chroma
    frameTimesSec := stft.frameTimesSec }

/-- The body of `analyzeSampleToMidi` after validation, as a function of
the decoded samples, the (validated, positive) sample rate and the merged
options.  `options.atonalThreshold || 0.65` is the JS falsy fallback:
a zero threshold falls back to `0.65`. -/
noncomputable def analyzeCore (audioBuffer : List ℝ) (sampleRate : ℚ)
    (options : AnalysisOptions) : AnalysisResult :=
  let preprocessResult := preprocessAudio audioBuffer options.doHPSS
  let transcription := transcribeV1 preprocessResult.normalizedBuffer sampleRate
    options.timeResolutionMs options.minNoteDurationMs
  let split := splitMelodyHarmony transcription.notes
    { timeResolutionMs := (options.timeResolutionMs : ℝ)
      extractMelody := options.extractMelody
      extractHarmony := options.extractHarmony }
  let inferred :=
    if options.inferChords then
      (inferChordsFromChroma transcription.chroma
        (transcription.frameTimesSec.map (fun t => (t : ℝ))) none none).1
    else []
  let keyEstimate :=
    if options.inferChords then estimateKeyFromChroma transcription.chroma
    else none
  let atonality :=
    if options.detectAtonal then
      some (scoreAtonality
        { keyEstimate := keyEstimate
          chords := inferred
          chromaFrames := transcription.chroma
          atonalThreshold := (jsOrDefault (some options.atonalThreshold) (13/20) : ℚ) })
    else none
  { notes := transcription.notes
    melodyNotes := split.melodyNotes
    harmonyNotes := split.harmonyNotes
    chords := inferred
    keyEstimate := keyEstimate
    atonalScore := match atonality with
      | some a => a.atonalScore
      | none => createEmptyAnalysisResult.atonalScore
    isAtonal := match atonality with
      | some a => a.isAtonal
      | none => createEmptyAnalysisResult.isAtonal }

/-- A JS number as validated by `Number.isFinite`: an exact finite value,
or one of the non-finite floats. -/
inductive JSNumber where
  | finite (value : ℚ)
  | nan
  | posInf
  | negInf

/-- A dynamically-typed JS value in the positions `validateAnalysisJobInput`
inspects: a `Float32Array` of samples, a number, `undefined`, or any other
non-number object. -/
inductive JSValue where
  | float32Array (samples : List ℝ)
  | number (n : JSNumber)
  | jsUndefined
  | otherValue

/-- Embedding of `AnalysisJobInput` as received by `analyzeSampleToMidi`: an object whose
`audioBuffer` and `sampleRate` properties hold arbitrary JS values.
(A non-object argument is rejected by the same validator with an analogous
`TypeError`; the claims quantify over object inputs.) -/
structure AnalysisJobInput where
  audioBuffer : JSValue
  sampleRate : JSValue
  options : Option PartialAnalysisOptions

/-- The `TypeError`s thrown by `validateAnalysisJobInput` (the spec's
`InvalidInput` class). -/
inductive AnalysisError where
  | invalidInput (message : String)

/-- The `audioBuffer instanceof Float32Array` check. -/
def isFloat32Array : JSValue → Prop
  | JSValue.float32Array _ => True
  | _ => False

/-- The `Number.isFinite(sampleRate) && sampleRate > 0` check. -/
def isPositiveFiniteRate : JSValue → Prop
  | JSValue.number (JSNumber.finite q) => 0 < q
  | _ => False

/-- Embedding of `analyzeSampleToMidi(input)` from `entrypoint.js`:
`validateAnalysisJobInput` rejects a non-`Float32Array` buffer first, then a
non-finite or non-positive sample rate; on valid input the pipeline body
(`analyzeCore`) runs and its result is returned. -/
noncomputable def analyzeSampleToMidi (input : AnalysisJobInput) :
    Except AnalysisError AnalysisResult :=
  match input.audioBuffer, input.sampleRate with
  | JSValue.float32Array samples, JSValue.number (JSNumber.finite q) =>
    if q ≤ 0 then
      Except.error (AnalysisError.invalidInput "input.sampleRate must be a positive number")
    else
      Except.ok (analyzeCore samples q (mergeAnalysisOptions input.options))
  | JSValue.float32Array _, _ =>
    Except.error (AnalysisError.invalidInput "input.sampleRate must be a positive number")
  | _, _ =>
    Except.error (AnalysisError.invalidInput "input.audioBuffer must be a Float32Array")

/-! ### Store-passing model of the `Float32Array` heap (for the
frame-effect claim C10)

`analyzeSampleToMidi` receives the caller's `Float32Array` by reference.
The only code that ever sees that reference is `validateAnalysisJobInput`
(reads only), `input.audioBuffer.length` (reads only) and
`preprocessAudio → toMono`, which immediately takes a fresh copy
(`new Float32Array(audioBuffer)`); every later stage receives only the
freshly allocated buffers (`monoBuffer`, `normalizedBuffer` and the HPSS
outputs) and plain values derived from them, never the caller's array.  The
model below makes the array heap explicit for exactly the code that can
reach the caller's array: arrays live in a store indexed by allocation
order, element writes are explicit store updates, and the downstream
pipeline (which receives no id of the caller's array) consumes the value
read from the freshly allocated normalized buffer. -/

/-- The array heap: one `List ℝ` per allocated `Float32Array`, indexed by
allocation order. -/
abbrev Store : Type := List (List ℝ)

/-- Allocate a fresh array holding `arr`; returns the new store and the new
array's id. -/
def storeAlloc (σ : Store) (arr : List ℝ) : Store × ℕ :=
  (σ ++ [arr], σ.length)

/-- Read a whole array from the store. -/
def storeRead (σ : Store) (id : ℕ) : List ℝ :=
  σ.getD id []

/-- Write one element of the array `id` (`arr[i] = v`). -/
def storeWrite (σ : Store) (id : ℕ) (i : ℕ) (v : ℝ) : Store :=
  σ.set id ((σ.getD id []).set i v)

/-- Embedding of `toMono` on the store: `new Float32Array(audioBuffer)` allocates a fresh
copy of the argument array. -/
def toMonoH (σ : Store) (bufId : ℕ) : Store × ℕ :=
  storeAlloc σ (storeRead σ bufId)

/-- Embedding of `normalizePeak` on the store: scan the argument array, then either
allocate a plain copy (silent input) or allocate a zero array
(`new Float32Array(length)`) and fill it element by element with the scaled
samples. -/
noncomputable def normalizePeakH (σ : Store) (bufId : ℕ) (targetPeak : ℝ) :
    Store × ℕ :=
  let buf := storeRead σ bufId
  let peak := normalizePeakScan buf
  if peak = 0 then storeAlloc σ buf
  else
    let alloc := storeAlloc σ (List.replicate buf.length 0)
    let σ₂ := (List.range buf.length).foldl
      (fun σ i => storeWrite σ alloc.2 i (buf.getD i 0 * (targetPeak / peak)))
      alloc.1
    (σ₂, alloc.2)

/-- Embedding of `runHPSSStub` on the store: a fresh copy of the normalized buffer and a
fresh zero buffer of equal length. -/
def runHPSSStubH (σ : Store) (normId : ℕ) : Store × ℕ × ℕ :=
  let harmonic := storeAlloc σ (storeRead σ normId)
  let percussive := storeAlloc harmonic.1 (List.replicate (storeRead σ normId).length 0)
  (percussive.1, harmonic.2, percussive.2)

/-- Embedding of `preprocessAudio` on the store; returns the store and the id of the
normalized buffer (the only preprocessing output the rest of the pipeline
reads). -/
noncomputable def preprocessAudioH (σ : Store) (bufId : ℕ) (doHPSS : Bool) :
    Store × ℕ :=
  let mono := toMonoH σ bufId
  let norm := normalizePeakH mono.1 mono.2 (49/50)
  if doHPSS then
    let hpss := runHPSSStubH norm.1 norm.2
    (hpss.1, norm.2)
  else (norm.1, norm.2)

/-- Embedding of `analyzeSampleToMidi` on the store, for a validated input whose array
lives at `bufId`: preprocessing runs against the store, and the remaining
stages — which in the source receive only the freshly allocated
`normalizedBuffer`, never the caller's array — consume its value. -/
noncomputable def analyzeSampleToMidiH (σ : Store) (bufId : ℕ)
    (sampleRate : ℚ) (options : Option PartialAnalysisOptions) :
    Store × AnalysisResult :=
  let opts := mergeAnalysisOptions options
  let pre := preprocessAudioH σ bufId opts.doHPSS
  let transcription := transcribeV1 (storeRead pre.1 pre.2) sampleRate
    opts.timeResolutionMs opts.minNoteDurationMs
  let split := splitMelodyHarmony transcription.notes
    { timeResolutionMs := (opts.timeResolutionMs : ℝ)
      extractMelody := opts.extractMelody
      extractHarmony := opts.extractHarmony }
  let inferred :=
    if opts.inferChords then
      (inferChordsFromChroma transcription.chroma
        (transcription.frameTimesSec.map (fun t => (t : ℝ))) none none).1
    else []
  let keyEstimate :=
    if opts.inferChords then estimateKeyFromChroma transcription.chroma
    else none
  let atonality :=
    if opts.detectAtonal then
      some (scoreAtonality
        { keyEstimate := keyEstimate
          chords := inferred
          chromaFrames := transcription.chroma
          atonalThreshold := (jsOrDefault (some opts.atonalThreshold) (13/20) : ℚ) })
    else none
  (pre.1,
   { notes := transcription.notes
     melodyNotes := split.melodyNotes
     harmonyNotes := split.harmonyNotes
     chords := inferred
     keyEstimate := keyEstimate
     atonalScore := match atonality with
       | some a => a.atonalScore
       | none => createEmptyAnalysisResult.atonalScore
     isAtonal := match atonality with
       | some a => a.isAtonal
       | none => createEmptyAnalysisResult.isAtonal })

/-! ## Theorems -/

/-! ### Generic list helpers -/

/-- A fold whose step ignores its input list element and returns the state
unchanged is the identity. -/
lemma foldl_skip {β γ : Type} : ∀ (l : List β) (s : γ), l.foldl (fun s _ => s) s = s
  | [], _ => rfl
  | _ :: t, s => foldl_skip t s

/-- Conditional push-folds are append-of-filter-map. -/
lemma foldl_push_filter {β γ : Type} (q : β → Prop) [DecidablePred q] (f : β → γ) :
    ∀ (l : List β) (acc : List γ),
      l.foldl (fun acc x => if q x then acc ++ [f x] else acc) acc =
        acc ++ (l.filter (fun x => decide (q x))).map f
  | [], acc => by simp
  | x :: t, acc => by
    simp only [List.foldl_cons, List.filter_cons]
    by_cases hx : q x
    · rw [if_pos hx, foldl_push_filter q f t (acc ++ [f x])]
      simp [hx]
    · rw [if_neg hx, foldl_push_filter q f t acc]
      simp [hx]

/-- Embedding of `getD` after an in-range `set` at the same index. -/
lemma getD_set_self {β : Type} {l : List β} {i : ℕ} {v d : β} (h : i < l.length) :
    (l.set i v).getD i d = v := by
  rw [List.getD_eq_getElem?_getD, List.getElem?_set_self h]
  rfl

/-- Embedding of `getD` after a `set` at a different index. -/
lemma getD_set_ne {β : Type} {l : List β} {i j : ℕ} {v d : β} (h : i ≠ j) :
    (l.set i v).getD j d = l.getD j d := by
  rw [List.getD_eq_getElem?_getD, List.getElem?_set_ne h, ← List.getD_eq_getElem?_getD]

/-! ### C5: variable-length-quantity encoding -/

/-- Emitting a one-byte buffer without continuation bit. -/
lemma vlqEmit_small {b : ℕ} (h : b < 128) : vlqEmit b = [b] := by
  rw [vlqEmit]
  rw [Nat.mod_eq_of_lt (by omega)]
  rw [if_neg (by omega)]

/-- Emitting a buffer whose low byte `b` carries the continuation bit emits
`b` and continues with the rest of the buffer. -/
lemma vlqEmit_shift (buf : ℕ) {b : ℕ} (h128 : 128 ≤ b) (h256 : b < 256) :
    vlqEmit (buf * 256 + b) = b :: vlqEmit buf := by
  have hmod : (buf * 256 + b) % 256 = b := by omega
  have hdiv : (buf * 256 + b) / 256 = buf := by omega
  rw [vlqEmit, hmod, hdiv, if_pos h128]

/-- Emitting the packed buffer of `vlqBuild v buf` yields the high 7-bit
groups of `v` (most-significant first, continuation bits set) followed by
the emission of the original buffer. -/
lemma vlqEmit_vlqBuild : ∀ (v buf : ℕ),
    vlqEmit (vlqBuild v buf) = vlqSpecHigh (v / 128) ++ vlqEmit buf
  | v, buf => by
    by_cases hv : 0 < v / 128
    · rw [vlqBuild, if_pos hv]
      rw [vlqEmit_vlqBuild (v / 128) (buf * 256 + (v / 128 % 128 + 128))]
      rw [vlqEmit_shift buf (by omega) (by omega)]
      conv_rhs => rw [vlqSpecHigh, if_neg (by omega : ¬ v / 128 = 0)]
      simp
    · rw [vlqBuild, if_neg hv]
      rw [vlqSpecHigh, if_pos (by omega)]
      simp
termination_by v => v
decreasing_by
  exact Nat.div_lt_self (by omega) (by omega)

/-- C5 (confirmed): for every value representable in at most four 7-bit
groups (`value < 2^28`), `encodeVarLen` returns exactly the MIDI
variable-length-quantity encoding of the value: its 7-bit groups in
most-significant-first order, the continuation bit `0x80` set on every byte
but the last, and the shortest such encoding (`[0x00]` for `0`) — the
byte list `vlqSpec value`.  (The proof never needs the bound: with exact
arithmetic the algorithm is correct for all naturals; the bound is where
the JS 32-bit operations coincide with exact arithmetic.) -/
theorem encodeVarLen_eq_vlqSpec (value : ℕ) (_hvalue : value < 2 ^ 28) :
    encodeVarLen value = vlqSpec value := by
  rw [encodeVarLen, vlqSpec, vlqEmit_vlqBuild]
  rw [vlqEmit_small (Nat.mod_lt _ (by omega))]

/-- Witness for C5 at `value = 128`. -/
theorem encodeVarLen_eq_vlqSpec_witness :
    128 < 2 ^ 28 ∧ encodeVarLen 128 = vlqSpec 128 :=
  ⟨by norm_num, encodeVarLen_eq_vlqSpec 128 (by norm_num)⟩

/-! ### C8: `normalizePeak` -/

/-- The peak scan of `normalizePeak` is the maximum absolute sample. -/
lemma normalizePeakScan_eq_maxAbsSample {α : Type} [LinearOrderedField α]
    (audioBuffer : List α) : normalizePeakScan audioBuffer = maxAbsSample audioBuffer := by
  unfold normalizePeakScan maxAbsSample
  refine List.foldl_ext _ _ _ (fun peak v _ => ?_)
  rcases lt_or_ge peak |v| with h | h
  · rw [if_pos h, max_eq_right h.le]
  · rw [if_neg (not_lt.mpr h), max_eq_left h]

/-- The initial accumulator is a lower bound of a `max`-fold. -/
lemma le_foldl_max {α : Type} [LinearOrderedField α] :
    ∀ (l : List α) (acc : α), acc ≤ l.foldl (fun m v => max m |v|) acc
  | [], _ => le_refl _
  | x :: t, acc => le_trans (le_max_left acc |x|) (le_foldl_max t _)

/-- A `max`-of-absolutes fold from a nonnegative start is zero exactly when
the start is zero and every element is zero. -/
lemma foldl_max_eq_zero_iff {α : Type} [LinearOrderedField α] :
    ∀ (l : List α) (acc : α), 0 ≤ acc →
      (l.foldl (fun m v => max m |v|) acc = 0 ↔ acc = 0 ∧ ∀ x ∈ l, x = 0)
  | [], acc, _ => by simp
  | x :: t, acc, hacc => by
    rw [List.foldl_cons, foldl_max_eq_zero_iff t (max acc |x|) (le_trans hacc (le_max_left _ _))]
    constructor
    · rintro ⟨hmax, hall⟩
      have hx : |x| = 0 := le_antisymm (hmax ▸ le_max_right acc |x|) (abs_nonneg x)
      have ha : acc = 0 := le_antisymm (hmax ▸ le_max_left acc |x|) hacc
      exact ⟨ha, by
        intro y hy
        rcases List.mem_cons.mp hy with h | h
        · exact h ▸ abs_eq_zero.mp hx
        · exact hall y h⟩
    · rintro ⟨ha, hall⟩
      refine ⟨?_, fun y hy => hall y (List.mem_cons_of_mem x hy)⟩
      rw [ha, abs_eq_zero.mpr (hall x (List.mem_cons_self x t)), max_self]

/-- Embedding of `maxAbsSample` is zero exactly on all-zero buffers. -/
lemma maxAbsSample_eq_zero_iff {α : Type} [LinearOrderedField α] (audioBuffer : List α) :
    maxAbsSample audioBuffer = 0 ↔ ∀ x ∈ audioBuffer, x = 0 := by
  rw [maxAbsSample, foldl_max_eq_zero_iff audioBuffer 0 (le_refl 0)]
  simp

/-- C8 (confirmed): `normalizePeak` is total on buffers of any length and
never divides by zero: it always returns a buffer of the input's length, an
all-zero input comes back unchanged (as an unscaled copy — the zero peak is
never used as a divisor), and a buffer with any non-zero sample has every
sample scaled by `targetPeak / maxAbsSample`. -/
theorem normalizePeak_safe {α : Type} [LinearOrderedField α]
    (audioBuffer : List α) (targetPeak : α) :
    (normalizePeak audioBuffer targetPeak).length = audioBuffer.length ∧
    ((∀ x ∈ audioBuffer, x = 0) → normalizePeak audioBuffer targetPeak = audioBuffer) ∧
    ((∃ x ∈ audioBuffer, x ≠ 0) →
      normalizePeak audioBuffer targetPeak =
        audioBuffer.map (fun v => v * (targetPeak / maxAbsSample audioBuffer))) := by
  refine ⟨?_, ?_, ?_⟩
  · rw [normalizePeak]
    by_cases h : normalizePeakScan audioBuffer = 0
    · rw [if_pos h]
    · rw [if_neg h, List.length_map]
  · intro hall
    rw [normalizePeak, if_pos]
    rw [normalizePeakScan_eq_maxAbsSample, maxAbsSample_eq_zero_iff]
    exact hall
  · rintro ⟨x, hx, hxne⟩
    rw [normalizePeak, normalizePeakScan_eq_maxAbsSample, if_neg]
    intro h0
    exact hxne ((maxAbsSample_eq_zero_iff audioBuffer).mp h0 x hx)

/-- Witness for C8: the all-zero buffer `[0, 0]` comes back unchanged, and
the buffer `[2]` is scaled by `targetPeak / 2`. -/
theorem normalizePeak_safe_witness :
    normalizePeak [(0 : ℚ), 0] (49/50) = [0, 0] ∧
    normalizePeak [(2 : ℚ)] (49/50) = [2 * ((49/50) / maxAbsSample [(2 : ℚ)])] :=
  ⟨(normalizePeak_safe [(0 : ℚ), 0] (49/50)).2.1 (by
      intro x hx
      rcases List.mem_cons.mp hx with h | h
      · exact h
      · simpa using h),
   by
    have h := (normalizePeak_safe [(2 : ℚ)] (49/50)).2.2
      ⟨2, List.mem_singleton.mpr rfl, by norm_num⟩
    rw [h]
    rfl⟩

/-! ### C1: atonality score on fully degenerate input -/

/-- On empty chroma, no key estimate and no chords, the atonality factors
are `1, 1, 0, 1` and the blended score is
`0.35 + 0.30 + 0 + 0.20 = 0.85 = 17/20`. -/
lemma scoreAtonality_degenerate (t : ℝ) :
    (scoreAtonality (⟨none, [], [], t⟩ : AtonalityParams)).atonalScore = 17/20 := by
  simp only [scoreAtonality, chordErraticness]
  norm_num

/-- C1 (counterexample): with empty chroma frames, no key estimate and an
empty chord list (threshold `0.65`), the returned `atonalScore` is not `1` —
the erraticness factor of an empty chord list is `0`, not `1`, so the
blend reaches only `0.85`. -/
theorem scoreAtonality_degenerate_ne_one :
    (scoreAtonality (⟨none, [], [], 13/20⟩ : AtonalityParams)).atonalScore ≠ 1 := by
  rw [scoreAtonality_degenerate]
  norm_num

/-- C1 (amended): with empty chroma frames, no key estimate and no chords,
the returned `atonalScore` equals `0.85` (the `chordErraticness` factor of
an empty chord list is `0`, so the clamped blend is
`0.35·1 + 0.30·1 + 0.15·0 + 0.20·1 = 0.85`), and `isAtonal` holds for every
threshold at most `0.85`. -/
theorem scoreAtonality_degenerate_eq (t : ℝ) :
    (scoreAtonality (⟨none, [], [], t⟩ : AtonalityParams)).atonalScore = 17/20 ∧
    (t ≤ 17/20 → (scoreAtonality (⟨none, [], [], t⟩ : AtonalityParams)).isAtonal) := by
  refine ⟨scoreAtonality_degenerate t, fun ht => ?_⟩
  have hscore : (scoreAtonality (⟨none, [], [], t⟩ : AtonalityParams)).atonalScore = 17/20 := scoreAtonality_degenerate t
  simp only [scoreAtonality] at hscore ⊢
  exact le_trans ht (le_of_eq hscore.symm)

/-- Witness for C1 (amended) at the default threshold `0.65`. -/
theorem scoreAtonality_degenerate_eq_witness :
    (scoreAtonality (⟨none, [], [], (13/20 : ℝ)⟩ : AtonalityParams)).atonalScore = 17/20 ∧
    (scoreAtonality (⟨none, [], [], (13/20 : ℝ)⟩ : AtonalityParams)).isAtonal :=
  ⟨(scoreAtonality_degenerate_eq (13/20)).1,
   (scoreAtonality_degenerate_eq (13/20)).2 (by norm_num)⟩

/-! ### C9: adjacent merged chords have distinct labels -/

/-- The merging fold keeps the (reversed) accumulator free of adjacent
equal labels: extending the last run keeps its label, and a new event is
pushed only when its label differs from the last one. -/
lemma mergeChordStep_fold_chain {α : Type} [LinearOrderedField α] :
    ∀ (windows : List (ChordWindow α)) (acc : List (ChordEvent α)),
      List.Chain' (fun a b => a.label ≠ b.label) acc →
      List.Chain' (fun a b => a.label ≠ b.label) (windows.foldl mergeChordStep acc)
  | [], _, h => h
  | w :: ws, acc, h => by
    rw [List.foldl_cons]
    refine mergeChordStep_fold_chain ws _ ?_
    match acc, h with
    | [], _ => exact List.chain'_singleton _
    | previous :: rest, h =>
      rw [mergeChordStep]
      by_cases hl : previous.label = w.label
      · rw [if_pos hl]
        cases rest with
        | nil => exact List.chain'_singleton _
        | cons r rs =>
          rw [List.chain'_cons] at h ⊢
          exact ⟨h.1, h.2⟩
      · rw [if_neg hl]
        rw [List.chain'_cons]
        exact ⟨fun hcontra => hl hcontra.symm, h⟩

/-- C9 (confirmed): for every list of chroma frames, frame times and window
options, no two consecutive chord events returned by
`inferChordsFromChroma` carry the same label — adjacent equal-label windows
are always merged into a single event. -/
theorem inferChordsFromChroma_chain {α : Type} [LinearOrderedField α] [FloorRing α]
    (chromaFrames : List (List α)) (frameTimesSec : List α)
    (windowMs hopMs : Option α) :
    List.Chain' (fun a b => a.label ≠ b.label)
      (inferChordsFromChroma chromaFrames frameTimesSec windowMs hopMs).1 := by
  by_cases hempty : chromaFrames.isEmpty ∨ frameTimesSec.isEmpty
  · simp only [inferChordsFromChroma, if_pos hempty]
    exact List.chain'_nil
  · simp only [inferChordsFromChroma, if_neg hempty, mergeChordWindows]
    refine (List.chain'_reverse).mpr ?_
    refine List.Chain'.imp ?_ (mergeChordStep_fold_chain _ [] List.chain'_nil)
    intro a b hab hba
    exact hab hba.symm

/-! ### C6: the melody/harmony split partitions its input -/

/-- Moving an element from the middle of a concatenation to the head of its
tail is a permutation. -/
lemma perm_push_left {β : Type} (a b T : List β) (n : β) :
    List.Perm (((a ++ [n]) ++ b) ++ T) ((a ++ b) ++ (n :: T)) := by
  simp only [List.append_assoc]
  refine List.Perm.append_left a ?_
  rw [List.singleton_append]
  exact (@List.perm_middle _ n b T).symm

/-- With both extraction flags set, each classification step moves the
note into exactly one output list, so the concatenated outputs of the fold
are a permutation of the previous accumulator contents plus all remaining
notes. -/
lemma splitClassifyStep_fold_perm {α : Type} [LinearOrderedField α]
    (timeRes : α) :
    ∀ (pairs : List (NoteEvent α × (ℕ × ℕ)))
      (acc : List (NoteEvent α) × List (NoteEvent α)),
      List.Perm
        ((pairs.foldl (splitClassifyStep ⟨timeRes, true, true⟩) acc).1 ++
          (pairs.foldl (splitClassifyStep ⟨timeRes, true, true⟩) acc).2)
        (acc.1 ++ acc.2 ++ pairs.map Prod.fst)
  | [], acc => by simp
  | p :: t, acc => by
    rw [List.foldl_cons, List.map_cons]
    by_cases hm : (11/20 : α) ≤ (if 0 < p.2.1 then (p.2.2 : α) / (p.2.1 : α) else 0) ∧
        (55 : α) ≤ p.1.pitchMidi
    · have hstep : splitClassifyStep (⟨timeRes, true, true⟩ : SplitOptions α) acc p =
          (acc.1 ++ [p.1], acc.2) := by
        rw [splitClassifyStep, if_pos ⟨hm, rfl⟩]
      rw [hstep]
      refine (splitClassifyStep_fold_perm timeRes t (acc.1 ++ [p.1], acc.2)).trans ?_
      exact perm_push_left acc.1 acc.2 (t.map Prod.fst) p.1
    · have hstep : splitClassifyStep (⟨timeRes, true, true⟩ : SplitOptions α) acc p =
          (acc.1, acc.2 ++ [p.1]) := by
        rw [splitClassifyStep, if_neg (fun hc => hm hc.1), if_pos rfl]
      rw [hstep]
      refine (splitClassifyStep_fold_perm timeRes t (acc.1, acc.2 ++ [p.1])).trans ?_
      simp only [List.append_assoc, List.singleton_append]
      exact List.Perm.refl _

/-- Embedding of `splitFrameStep` preserves the length of the statistics list. -/
lemma splitFrameStep_length {α : Type} [LinearOrderedField α]
    (notes : List (NoteEvent α)) (frameSec : α) (stats : List (ℕ × ℕ)) (k : ℕ) :
    (splitFrameStep notes frameSec stats k).length = stats.length := by
  rw [splitFrameStep]
  have haux : ∀ (l : List ℕ) (s : List (ℕ × ℕ)),
      (l.foldl (fun s i => s.set i ((s.getD i (0, 0)).1 + 1, (s.getD i (0, 0)).2)) s).length
        = s.length := by
    intro l
    induction l with
    | nil => intro s; rfl
    | cons i t ih => intro s; rw [List.foldl_cons, ih, List.length_set]
  cases hfn : ((notes.enum.filter (fun p =>
      overlaps p.2.startSec p.2.durationSec ((k : α) * frameSec) frameSec)).map Prod.fst) with
  | nil => simp only [hfn]; exact haux _ stats
  | cons first rest =>
    simp only [hfn]
    rw [List.length_set, haux _ stats]

/-- The statistics sweep preserves the length of the statistics list. -/
lemma splitStats_length {α : Type} [LinearOrderedField α]
    (notes : List (NoteEvent α)) (frameSec : α) :
    ∀ (ks : List ℕ) (stats : List (ℕ × ℕ)),
      (ks.foldl (splitFrameStep notes frameSec) stats).length = stats.length
  | [], _ => rfl
  | k :: t, stats => by
    rw [List.foldl_cons, splitStats_length notes frameSec t, splitFrameStep_length]

/-- C6 (confirmed): with both `extractMelody` and `extractHarmony` set,
`splitMelodyHarmony` places every input note into exactly one of the
returned `melodyNotes` and `harmonyNotes` lists and drops or duplicates
none: the concatenation of the two outputs is a permutation of the
input. -/
theorem splitMelodyHarmony_partition {α : Type} [LinearOrderedField α] [FloorRing α]
    (notes : List (NoteEvent α)) (timeResolutionMs : α) :
    List.Perm
      ((splitMelodyHarmony notes ⟨timeResolutionMs, true, true⟩).melodyNotes ++
        (splitMelodyHarmony notes ⟨timeResolutionMs, true, true⟩).harmonyNotes)
      notes := by
  by_cases hempty : notes.isEmpty
  · simp only [splitMelodyHarmony, if_pos hempty]
    rw [List.isEmpty_iff.mp hempty]
    exact List.Perm.refl _
  · simp only [splitMelodyHarmony, if_neg hempty, splitClassify]
    refine (splitClassifyStep_fold_perm timeResolutionMs _ ([], [])).trans ?_
    rw [List.nil_append, List.nil_append, List.map_fst_zip]
    rw [splitStats_length, List.length_map]

/-! ### C2: the tracker on a silent frame -/

/-- With a zero frame peak the activation sweep activates nothing and
leaves the `active` map untouched: every semitone is skipped by the
`framePeak === 0` guard. -/
lemma trackActivate_zero_peak {α : Type} [LinearOrderedField α]
    (frameDurationSec frameTime : α) (frameEnergy : List α) (threshold : α)
    (active : List (ℕ × ActiveNote α)) :
    trackActivate frameDurationSec frameTime frameEnergy 0 threshold active =
      ([], active) := by
  rw [trackActivate]
  have h := List.foldl_ext
    (fun (state : List ℕ × List (ℕ × ActiveNote α)) midi =>
      if frameEnergy.getD midi 0 < threshold ∨ (0 : α) = 0 then state
      else
        let energy := frameEnergy.getD midi 0
        let confidence := clamp (energy / 0) 0 1
        let activeNow := state.1 ++ [midi]
        match state.2.lookup midi with
        | none =>
          (activeNow, state.2 ++ [(midi,
            { pitchMidi := midi
              startSec := frameTime
              durationSec := frameDurationSec
              confidenceSum := confidence
              frameCount := 1 })])
        | some _ =>
          (activeNow, state.2.map (fun p =>
            if p.1 = midi then
              (p.1, { p.2 with
                durationSec := p.2.durationSec + frameDurationSec
                confidenceSum := p.2.confidenceSum + confidence
                frameCount := p.2.frameCount + 1 })
            else p)))
    (fun state _ => state)
    (([], active) : List ℕ × List (ℕ × ActiveNote α))
    (l := List.range' 36 61)
    (fun s m _ => if_pos (Or.inr rfl))
  rw [h, foldl_skip]

/-- A silent frame (zero frame peak) activates no semitone and finalizes
every previously active record: those long enough are emitted (in map
order), the rest are discarded, and the `active` map is left empty. -/
lemma trackStep_silent {α : Type} [LinearOrderedField α] [FloorRing α]
    (frameDurationSec minDurationSec : α) (st : TrackState α)
    (frameEnergy : List α) (frameTime : α) (h : framePeakOf frameEnergy = 0) :
    trackStep frameDurationSec minDurationSec st frameEnergy frameTime =
      { notes := st.notes ++
          ((st.active.filter (fun p => decide (minDurationSec ≤ p.2.durationSec))).map
            (fun p => finalizeNote p.2))
        active := [] } := by
  simp only [trackStep, h]
  rw [trackActivate_zero_peak]
  simp only [List.not_mem_nil, not_false_eq_true, decide_true_eq_true, List.filter_true,
    decide_false_eq_false, List.filter_false]
  refine congrArg (fun n => ({ notes := n, active := [] } : TrackState α)) ?_
  exact foldl_push_filter (fun p => minDurationSec ≤ p.2.durationSec)
    (fun p => finalizeNote p.2) st.active st.notes

/-- The frame-peak scan of the empty energy list is zero. -/
lemma framePeakOf_nil {α : Type} [LinearOrderedField α] :
    framePeakOf ([] : List α) = 0 := by
  rw [framePeakOf]
  have haux : ∀ (l : List ℕ),
      l.foldl (fun peak midi =>
        if peak < ([] : List α).getD midi 0 then ([] : List α).getD midi 0 else peak) 0 = 0 := by
    intro l
    induction l with
    | nil => rfl
    | cons m t ih =>
      rw [List.foldl_cons]
      have : (if (0 : α) < ([] : List α).getD m 0 then ([] : List α).getD m 0 else 0) = 0 := by
        rw [List.getD_nil, if_neg (lt_irrefl 0)]
      rw [this, ih]
  exact haux _

/-- C2 (amended): for every frame whose per-semitone energy peak is zero
(total silence), no semitone is active that frame; previously active
semitones are not left unchanged, however — the silent frame finalizes all
of them: each is emitted as a note exactly when its accumulated duration
reaches the minimum, and the active map is empty afterwards. -/
theorem trackStep_silent_frame {α : Type} [LinearOrderedField α] [FloorRing α]
    (frameDurationSec minDurationSec : α) (st : TrackState α)
    (frameEnergy : List α) (frameTime : α) (h : framePeakOf frameEnergy = 0) :
    (trackStep frameDurationSec minDurationSec st frameEnergy frameTime).active = [] ∧
    (trackStep frameDurationSec minDurationSec st frameEnergy frameTime).notes =
      st.notes ++
        ((st.active.filter (fun p => decide (minDurationSec ≤ p.2.durationSec))).map
          (fun p => finalizeNote p.2)) := by
  rw [trackStep_silent frameDurationSec minDurationSec st frameEnergy frameTime h]
  exact ⟨rfl, rfl⟩

/-- Witness for C2 (amended): a silent frame hitting a tracker state with
one active semitone. -/
theorem trackStep_silent_frame_witness :
    (trackStep (1 : ℚ) (1/2) ⟨[], [(60, ⟨60, 0, 1, 1, 1⟩)]⟩ [] 5).active = [] ∧
    (trackStep (1 : ℚ) (1/2) ⟨[], [(60, ⟨60, 0, 1, 1, 1⟩)]⟩ [] 5).notes =
      [] ++ ((([(60, (⟨60, 0, 1, 1, 1⟩ : ActiveNote ℚ))]).filter
          (fun p => decide ((1/2 : ℚ) ≤ p.2.durationSec))).map
        (fun p => finalizeNote p.2)) :=
  trackStep_silent_frame (1 : ℚ) (1/2) ⟨[], [(60, ⟨60, 0, 1, 1, 1⟩)]⟩ [] 5 framePeakOf_nil

/-- C2 (counterexample): a totally silent frame does not leave an
already-active semitone unchanged — it removes it from the active map
(finalizing it), so the tracker state after the silent frame differs from
the state before it. -/
theorem trackStep_silent_frame_changes :
    trackStep (1 : ℚ) (1/2) ⟨[], [(60, ⟨60, 0, 1, 1, 1⟩)]⟩ ([] : List ℚ) 5 ≠
      ⟨[], [(60, ⟨60, 0, 1, 1, 1⟩)]⟩ := by
  intro hcontra
  have h := congrArg TrackState.active hcontra
  rw [trackStep_silent (1 : ℚ) (1/2) _ _ 5 framePeakOf_nil] at h
  simp at h

/-! ### C3: which frames the STFT loop emits -/

/-- Membership characterization of the frame-start loop: position `p` is
emitted iff it is a hop multiple (counted from `start`) before the buffer
end such that every earlier frame of the run ended strictly inside the
buffer (the JS `break` fires on the first frame reaching the end). -/
lemma stftStartsAux_mem :
    ∀ (fuel len frameSize hopSize start : ℕ), 0 < hopSize → len - start < fuel →
      ∀ p, (p ∈ stftStartsAux len frameSize hopSize fuel start ↔
        ∃ k, p = start + k * hopSize ∧ p < len ∧
          ∀ j < k, start + j * hopSize + frameSize < len)
  | 0, _, _, _, _, _, hfuel, _ => absurd hfuel (Nat.not_lt_zero _)
  | fuel + 1, len, fs, hop, start, hhop, hfuel, p => by
    simp only [stftStartsAux]
    by_cases hs : start < len
    · rw [if_pos hs]
      by_cases hbreak : len ≤ start + fs
      · rw [if_pos hbreak]
        simp only [List.mem_singleton]
        constructor
        · rintro rfl
          exact ⟨0, by omega, hs, fun j hj => absurd hj (Nat.not_lt_zero j)⟩
        · rintro ⟨k, hp, hplen, hall⟩
          cases k with
          | zero => omega
          | succ k' =>
            have h0 := hall 0 (Nat.succ_pos k')
            omega
      · rw [if_neg hbreak]
        rw [List.mem_cons]
        rw [stftStartsAux_mem fuel len fs hop (start + hop) hhop (by omega) p]
        constructor
        · rintro (rfl | ⟨k', hp, hplen, hall⟩)
          · exact ⟨0, by omega, hs, fun j hj => absurd hj (Nat.not_lt_zero j)⟩
          · refine ⟨k' + 1, by rw [hp, Nat.succ_mul]; omega, hplen, ?_⟩
            intro j hj
            cases j with
            | zero => omega
            | succ j' =>
              have hj' := hall j' (by omega)
              rw [Nat.succ_mul]
              omega
        · rintro ⟨k, hp, hplen, hall⟩
          cases k with
          | zero => left; omega
          | succ k' =>
            right
            refine ⟨k', by rw [hp, Nat.succ_mul]; omega, hplen, ?_⟩
            intro j hj
            have hj1 := hall (j + 1) (by omega)
            rw [Nat.succ_mul] at hj1
            omega
    · rw [if_neg hs]
      simp only [List.not_mem_nil, false_iff]
      rintro ⟨k, hp, hplen, _⟩
      omega

/-- Membership characterization of `stftFrameStarts` (start `0`). -/
lemma stftFrameStarts_mem (len frameSize hopSize : ℕ) (hhop : 0 < hopSize) (p : ℕ) :
    p ∈ stftFrameStarts len frameSize hopSize ↔
      ∃ k, p = k * hopSize ∧ p < len ∧ ∀ j < k, j * hopSize + frameSize < len := by
  rw [stftFrameStarts,
    stftStartsAux_mem (len + 1) len frameSize hopSize 0 hhop (by omega) p]
  constructor
  · rintro ⟨k, hp, hplen, hall⟩
    exact ⟨k, by omega, hplen, fun j hj => by have hj' := hall j hj; omega⟩
  · rintro ⟨k, hp, hplen, hall⟩
    exact ⟨k, by omega, hplen, fun j hj => by have hj' := hall j hj; omega⟩

/-- C3 (amended): for every buffer, sample rate, frame size and positive
hop size, `computeStftFrames` emits frames exactly at the hop positions
`k·hop` that lie strictly before the buffer end **and** whose every earlier
frame ended strictly inside the buffer (`j·hop + frameSize < length` for
all `j < k`): the loop stops after the first frame that reaches or passes
the buffer end (that final partial frame is zero-padded and processed
once), so later in-buffer hop positions are not emitted.  Frame times are
`frameStart / sampleRate` over exactly these start positions. -/
theorem computeStftFrames_starts (audioBuffer : List ℝ) (sampleRate : ℚ)
    (frameSize hopSize : ℕ) (hhop : 0 < hopSize) :
    (computeStftFrames audioBuffer sampleRate frameSize hopSize).frameTimesSec =
      (stftFrameStarts audioBuffer.length frameSize hopSize).map
        (fun frameStart => (frameStart : ℚ) / sampleRate) ∧
    (∀ p, p ∈ stftFrameStarts audioBuffer.length frameSize hopSize ↔
      ∃ k, p = k * hopSize ∧ p < audioBuffer.length ∧
        ∀ j < k, j * hopSize + frameSize < audioBuffer.length) :=
  ⟨rfl, fun p => stftFrameStarts_mem _ _ _ hhop p⟩

/-- Witness for C3 (amended): a 10-sample buffer, frame size 8, hop 4. -/
theorem computeStftFrames_starts_witness :
    (computeStftFrames (List.replicate 10 (0 : ℝ)) 1 8 4).frameTimesSec =
      (stftFrameStarts 10 8 4).map (fun frameStart => (frameStart : ℚ) / 1) ∧
    (∀ p, p ∈ stftFrameStarts 10 8 4 ↔
      ∃ k, p = k * 4 ∧ p < 10 ∧ ∀ j < k, j * 4 + 8 < 10) := by
  have h := computeStftFrames_starts (List.replicate 10 (0 : ℝ)) 1 8 4 (by norm_num)
  simpa using h

/-- C3 (counterexample): on a 10-sample buffer with frame size 8 and hop 4
the claimed start set `{0, 4, 8}` (every hop multiple below the buffer end)
is wrong: the frame at 4 already reaches the buffer end (`4 + 8 ≥ 10`), so
the loop breaks and the frame at 8 is never emitted — only two frames
exist. -/
theorem computeStftFrames_starts_cx :
    (computeStftFrames (List.replicate 10 (0 : ℝ)) 1 8 4).frameTimesSec ≠
      (claimedStftStarts 10 4).map (fun frameStart => (frameStart : ℚ) / 1) := by
  intro hcontra
  have hlen := congrArg List.length hcontra
  rw [show (computeStftFrames (List.replicate 10 (0 : ℝ)) 1 8 4).frameTimesSec
      = (stftFrameStarts 10 8 4).map (fun frameStart => (frameStart : ℚ) / 1) from rfl] at hlen
  rw [show stftFrameStarts 10 8 4 = [0, 4] from rfl] at hlen
  rw [show claimedStftStarts 10 4 = [0, 4, 8] from rfl] at hlen
  simp at hlen

/-! ### C4: which bins the pitch projector accumulates -/

/-- Embedding of `frequencyToMidi` at the band edge `27.5 Hz` (the pipeline's lowest
admitted frequency): `27.5 / 440 = 2^(-4)`, so the rounded semitone is
`69 - 48 = 21`. -/
lemma frequencyToMidi_at_275 : frequencyToMidi (55/2) = 21 := by
  rw [frequencyToMidi]
  rw [show ((55/2 : ℚ) / 440) = (2 : ℚ) ^ (-4 : ℤ) from by norm_num]
  rw [show (((2 : ℚ) ^ (-4 : ℤ)) ^ (24 : ℕ)) = (2 : ℚ) ^ (-96 : ℤ) from by
    rw [← zpow_natCast ((2 : ℚ) ^ (-4 : ℤ)), ← zpow_mul]; norm_num]
  rw [show Int.log 2 ((2 : ℚ) ^ (-96 : ℤ)) = -96 from
    Int.log_zpow (by norm_num : 1 < 2) (-96)]
  decide

/-- Faithfulness of the computable `frequencyToMidi` to the source formula
`Math.round(69 + 12 * Math.log2(frequencyHz / 440))` over exact reals, for
every positive frequency (the only frequencies reaching it: the band check
runs first). -/
lemma frequencyToMidi_eq_round (f : ℚ) (hf : 0 < f) :
    frequencyToMidi f = round ((69 : ℝ) + 12 * Real.logb 2 ((f : ℝ) / 440)) := by
  rw [frequencyToMidi]
  set e : ℤ := Int.log 2 ((f / 440) ^ (24 : ℕ)) with he
  have hp0 : (0 : ℚ) < (f / 440) ^ (24 : ℕ) := by positivity
  have hlowQ : (2 : ℚ) ^ e ≤ (f / 440) ^ (24 : ℕ) := by
    have h := Int.zpow_log_le_self (R := ℚ) (b := 2) (by norm_num) hp0
    exact_mod_cast h
  have hhighQ : (f / 440) ^ (24 : ℕ) < (2 : ℚ) ^ (e + 1) := by
    have h := Int.lt_zpow_succ_log_self (R := ℚ) (b := 2) (by norm_num)
      ((f / 440) ^ (24 : ℕ))
    exact_mod_cast h
  have hlowR : (2 : ℝ) ^ e ≤ ((f : ℝ) / 440) ^ (24 : ℕ) := by
    have h2 := (Rat.cast_le (K := ℝ)).mpr hlowQ
    push_cast at h2
    exact h2
  have hhighR : ((f : ℝ) / 440) ^ (24 : ℕ) < (2 : ℝ) ^ (e + 1) := by
    have h2 := (Rat.cast_lt (K := ℝ)).mpr hhighQ
    push_cast at h2
    exact h2
  have hpR : (0 : ℝ) < ((f : ℝ) / 440) ^ (24 : ℕ) := by positivity
  have hzlog : ∀ z : ℤ, Real.logb 2 ((2 : ℝ) ^ z) = z := fun z => by
    rw [show ((2 : ℝ) ^ z) = (2 : ℝ) ^ ((z : ℝ)) from (Real.rpow_intCast 2 z).symm]
    exact Real.logb_rpow (by norm_num) (by norm_num)
  have hTlow : (e : ℝ) ≤ Real.logb 2 (((f : ℝ) / 440) ^ (24 : ℕ)) := by
    have h := Real.logb_le_logb_of_le (b := 2) (by norm_num) (by positivity) hlowR
    rwa [hzlog e] at h
  have hThigh : Real.logb 2 (((f : ℝ) / 440) ^ (24 : ℕ)) < (e : ℝ) + 1 := by
    have h := Real.logb_lt_logb (b := 2) (by norm_num) hpR hhighR
    rwa [hzlog (e + 1), Int.cast_add, Int.cast_one] at h
  have hT : Real.logb 2 (((f : ℝ) / 440) ^ (24 : ℕ)) =
      24 * Real.logb 2 ((f : ℝ) / 440) := Real.logb_pow 2 ((f : ℝ) / 440) 24
  rw [hT] at hTlow hThigh
  rw [round_eq, Int.fdiv_eq_ediv _ (by norm_num)]
  rw [show (69 : ℝ) + 12 * Real.logb 2 ((f : ℝ) / 440) + 1 / 2 =
      (24 * Real.logb 2 ((f : ℝ) / 440) + 139) / 2 from by ring]
  symm
  rw [Int.floor_eq_iff]
  have hm1 : 2 * ((e + 139) / 2) ≤ e + 139 := by omega
  have hm2 : e + 139 ≤ 2 * ((e + 139) / 2) + 1 := by omega
  have hm1R : (2 : ℝ) * (((e + 139) / 2 : ℤ) : ℝ) ≤ (e : ℝ) + 139 := by
    have h2 := (Int.cast_le (R := ℝ)).mpr hm1
    push_cast at h2
    linarith
  have hm2R : (e : ℝ) + 139 ≤ 2 * (((e + 139) / 2 : ℤ) : ℝ) + 1 := by
    have h2 := (Int.cast_le (R := ℝ)).mpr hm2
    push_cast at h2
    linarith
  constructor
  · linarith
  · linarith

/-- The accumulation fold computes, slot by slot, the sum of the energies
of the kept bins mapping to that slot — per-semitone slots keyed by the
rounded semitone, chroma slots by its pitch class. -/
lemma chromaAccum_fold_spec {α : Type} [LinearOrderedField α]
    (spectrum : List α) (freqs : List ℚ) :
    ∀ (bins : List ℕ) (c me : List α), c.length = 12 → me.length = 128 →
      ((bins.foldl (chromaAccumStep spectrum freqs) (c, me)).1.length = 12 ∧
       (bins.foldl (chromaAccumStep spectrum freqs) (c, me)).2.length = 128) ∧
      (∀ m : ℕ, m < 128 →
        (bins.foldl (chromaAccumStep spectrum freqs) (c, me)).2.getD m 0 =
          me.getD m 0 + (bins.map (fun bin =>
            if chromaBinKeeps freqs bin ∧
                (frequencyToMidi (freqs.getD bin 0)).toNat = m
            then spectrum.getD bin 0 else 0)).sum) ∧
      (∀ pc : ℕ, pc < 12 →
        (bins.foldl (chromaAccumStep spectrum freqs) (c, me)).1.getD pc 0 =
          c.getD pc 0 + (bins.map (fun bin =>
            if chromaBinKeeps freqs bin ∧
                ((frequencyToMidi (freqs.getD bin 0) % 12 + 12) % 12).toNat = pc
            then spectrum.getD bin 0 else 0)).sum)
  | [], c, me, hc, hme => by
    refine ⟨⟨hc, hme⟩, fun m _ => ?_, fun pc _ => ?_⟩ <;> simp
  | bin :: bins, c, me, hc, hme => by
    rw [List.foldl_cons]
    by_cases hband : freqs.getD bin 0 < 27.5 ∨ freqs.getD bin 0 > 5000
    · have hstep : chromaAccumStep spectrum freqs (c, me) bin = (c, me) := by
        rw [chromaAccumStep, if_pos hband]
      have hkeep : ¬ chromaBinKeeps freqs bin := by
        rw [chromaBinKeeps]
        rintro ⟨⟨h1, h2⟩, -⟩
        rcases hband with h | h
        · exact absurd h1 (not_le.mpr h)
        · exact absurd h2 (not_le.mpr h)
      rw [hstep]
      obtain ⟨hlen, hme', hc'⟩ := chromaAccum_fold_spec spectrum freqs bins c me hc hme
      refine ⟨hlen, fun m hm => ?_, fun pc hpc => ?_⟩
      · rw [hme' m hm, List.map_cons, List.sum_cons, if_neg (fun hconj => hkeep hconj.1)]
        ring
      · rw [hc' pc hpc, List.map_cons, List.sum_cons, if_neg (fun hconj => hkeep hconj.1)]
        ring
    · by_cases hmidi : frequencyToMidi (freqs.getD bin 0) < 36 ∨
          frequencyToMidi (freqs.getD bin 0) > 96
      · have hstep : chromaAccumStep spectrum freqs (c, me) bin = (c, me) := by
          rw [chromaAccumStep, if_neg hband, if_pos hmidi]
        have hkeep : ¬ chromaBinKeeps freqs bin := by
          rw [chromaBinKeeps]
          rintro ⟨-, h1, h2⟩
          rcases hmidi with h | h
          · exact absurd h1 (not_le.mpr h)
          · exact absurd h2 (not_le.mpr h)
        rw [hstep]
        obtain ⟨hlen, hme', hc'⟩ := chromaAccum_fold_spec spectrum freqs bins c me hc hme
        refine ⟨hlen, fun m hm => ?_, fun pc hpc => ?_⟩
        · rw [hme' m hm, List.map_cons, List.sum_cons, if_neg (fun hconj => hkeep hconj.1)]
          ring
        · rw [hc' pc hpc, List.map_cons, List.sum_cons, if_neg (fun hconj => hkeep hconj.1)]
          ring
      · -- kept bin
        have hkeep : chromaBinKeeps freqs bin := by
          rw [chromaBinKeeps]
          push_neg at hband hmidi
          exact ⟨⟨hband.1, hband.2⟩, hmidi.1, hmidi.2⟩
        have hbound : 36 ≤ frequencyToMidi (freqs.getD bin 0) ∧
            frequencyToMidi (freqs.getD bin 0) ≤ 96 := by
          push_neg at hmidi
          exact hmidi
        have hpcint : (0 : ℤ) ≤ (frequencyToMidi (freqs.getD bin 0) % 12 + 12) % 12 :=
          Int.emod_nonneg _ (by norm_num)
        have hpclt : (frequencyToMidi (freqs.getD bin 0) % 12 + 12) % 12 < 12 :=
          Int.emod_lt_of_pos _ (by norm_num)
        have hmt : (frequencyToMidi (freqs.getD bin 0)).toNat < 128 := by omega
        have hpcnat : ((frequencyToMidi (freqs.getD bin 0) % 12 + 12) % 12).toNat < 12 := by
          omega
        have hstep : chromaAccumStep spectrum freqs (c, me) bin =
            (c.set ((frequencyToMidi (freqs.getD bin 0) % 12 + 12) % 12).toNat
              (c.getD ((frequencyToMidi (freqs.getD bin 0) % 12 + 12) % 12).toNat 0 +
                spectrum.getD bin 0),
             me.set (frequencyToMidi (freqs.getD bin 0)).toNat
              (me.getD (frequencyToMidi (freqs.getD bin 0)).toNat 0 + spectrum.getD bin 0)) := by
          simp only [chromaAccumStep]
          rw [if_neg hband, if_neg hmidi]
        rw [hstep]
        obtain ⟨hlen, hme', hc'⟩ := chromaAccum_fold_spec spectrum freqs bins
          (c.set ((frequencyToMidi (freqs.getD bin 0) % 12 + 12) % 12).toNat
            (c.getD ((frequencyToMidi (freqs.getD bin 0) % 12 + 12) % 12).toNat 0 +
              spectrum.getD bin 0))
          (me.set (frequencyToMidi (freqs.getD bin 0)).toNat
            (me.getD (frequencyToMidi (freqs.getD bin 0)).toNat 0 + spectrum.getD bin 0))
          (by rw [List.length_set]; exact hc) (by rw [List.length_set]; exact hme)
        refine ⟨hlen, fun m hm => ?_, fun pc hpc => ?_⟩
        · rw [hme' m hm, List.map_cons, List.sum_cons]
          by_cases hm_eq : (frequencyToMidi (freqs.getD bin 0)).toNat = m
          · rw [← hm_eq,
              getD_set_self (by rw [hme]; exact hmt),
              if_pos ⟨hkeep, rfl⟩]
            ring
          · rw [getD_set_ne hm_eq, if_neg (fun hconj => hm_eq hconj.2)]
            ring
        · rw [hc' pc hpc, List.map_cons, List.sum_cons]
          by_cases hpc_eq : ((frequencyToMidi (freqs.getD bin 0) % 12 + 12) % 12).toNat = pc
          · rw [← hpc_eq,
              getD_set_self (by rw [hc]; exact hpcnat),
              if_pos ⟨hkeep, rfl⟩]
            ring
          · rw [getD_set_ne hpc_eq, if_neg (fun hconj => hpc_eq hconj.2)]
            ring

/-- Embedding of `getD` of a replicated value at its own default. -/
lemma getD_replicate_self {β : Type} (v : β) (n i : ℕ) :
    (List.replicate n v).getD i v = v := by
  rw [List.getD_eq_getElem?_getD]
  rcases lt_or_ge i n with h | h
  · rw [List.getElem?_replicate, if_pos h]
    rfl
  · rw [List.getElem?_eq_none (by simpa using h)]
    rfl

/-- Two lists with equal lengths and equal `getD` views are equal. -/
lemma list_eq_of_getD {β : Type} (d : β) (l1 l2 : List β) (hlen : l1.length = l2.length)
    (h : ∀ i, i < l1.length → l1.getD i d = l2.getD i d) : l1 = l2 := by
  apply List.ext_getElem hlen
  intro i h1 h2
  have hh := h i h1
  rw [List.getD_eq_getElem?_getD, List.getD_eq_getElem?_getD,
    List.getElem?_eq_getElem h1, List.getElem?_eq_getElem h2] at hh
  simpa using hh

/-- Embedding of `getD` of a map over `List.range`. -/
lemma getD_map_range {β : Type} (n : ℕ) (g : ℕ → β) (d : β) (i : ℕ) (h : i < n) :
    ((List.range n).map g).getD i d = g i := by
  rw [List.getD_eq_getElem?_getD, List.getElem?_map, List.getElem?_range h]
  rfl

/-- Definitional unfolding of the per-semitone output of
`spectrumToChromaAndMidiEnergy` (stated over variables so that concrete
instances are obtained by instantiation, not kernel evaluation). -/
lemma spectrumToChroma_midiEnergy_unfold {α : Type} [LinearOrderedField α]
    (spectrum : List α) (freqs : List ℚ) :
    (spectrumToChromaAndMidiEnergy spectrum freqs).midiEnergy =
      ((List.range' 1 (spectrum.length - 1)).foldl (chromaAccumStep spectrum freqs)
        (List.replicate 12 0, List.replicate 128 0)).2 := rfl

/-- Definitional unfolding of the chroma output of
`spectrumToChromaAndMidiEnergy`. -/
lemma spectrumToChroma_chroma_unfold {α : Type} [LinearOrderedField α]
    (spectrum : List α) (freqs : List ℚ) :
    (spectrumToChromaAndMidiEnergy spectrum freqs).chroma =
      chromaPeakNormalize ((List.range' 1 (spectrum.length - 1)).foldl
        (chromaAccumStep spectrum freqs)
        (List.replicate 12 0, List.replicate 128 0)).1 := rfl

/-- Definitional unfolding of the per-semitone output of the claim-side
clamping variant. -/
lemma spectrumToChromaClamped_midiEnergy_unfold {α : Type} [LinearOrderedField α]
    (spectrum : List α) (freqs : List ℚ) :
    (spectrumToChromaClamped spectrum freqs).midiEnergy =
      ((List.range' 1 (spectrum.length - 1)).foldl (chromaAccumStepClamped spectrum freqs)
        (List.replicate 12 0, List.replicate 128 0)).2 := rfl

/-- C4 (amended): the pitch projector considers exactly the bins (of index
1 and above) whose center frequency lies in `[27.5 Hz, 5000 Hz]` **and**
whose rounded semitone `round(69 + 12·log2(f/440))` lies in `[36, 96]`;
each kept bin's energy is accumulated into the per-semitone slot of its
rounded semitone and into the chroma slot of that semitone's pitch class
(the chroma vector being peak-normalized afterwards).  Energy of an in-band
bin whose rounded semitone falls outside `[36, 96]` is discarded, not
clamped to the boundary. -/
theorem spectrumToChroma_discards {α : Type} [LinearOrderedField α]
    (spectrum : List α) (freqs : List ℚ) :
    (∀ m : ℕ, m < 128 →
      (spectrumToChromaAndMidiEnergy spectrum freqs).midiEnergy.getD m 0 =
        ((List.range' 1 (spectrum.length - 1)).map (fun bin =>
          if chromaBinKeeps freqs bin ∧
              (frequencyToMidi (freqs.getD bin 0)).toNat = m
          then spectrum.getD bin 0 else 0)).sum) ∧
    (spectrumToChromaAndMidiEnergy spectrum freqs).chroma =
      chromaPeakNormalize ((List.range 12).map (fun pc =>
        ((List.range' 1 (spectrum.length - 1)).map (fun bin =>
          if chromaBinKeeps freqs bin ∧
              ((frequencyToMidi (freqs.getD bin 0) % 12 + 12) % 12).toNat = pc
          then spectrum.getD bin 0 else 0)).sum)) := by
  obtain ⟨⟨hlc, hlm⟩, hme, hc⟩ := chromaAccum_fold_spec spectrum freqs
    (List.range' 1 (spectrum.length - 1)) (List.replicate 12 0) (List.replicate 128 0)
    (by rw [List.length_replicate]) (by rw [List.length_replicate])
  constructor
  · intro m hm
    rw [spectrumToChroma_midiEnergy_unfold, hme m hm, getD_replicate_self, zero_add]
  · rw [spectrumToChroma_chroma_unfold]
    congr 1
    apply list_eq_of_getD 0
    · rw [hlc, List.length_map, List.length_range]
    · intro i hi
      rw [hlc] at hi
      rw [hc i hi, getD_map_range 12 _ 0 i hi, getD_replicate_self, zero_add]

/-- Witness for C4 (amended) at spectrum `[0, 1]`, bin frequencies
`[0 Hz, 27.5 Hz]` and semitone slot `36`. -/
theorem spectrumToChroma_discards_witness :
    (spectrumToChromaAndMidiEnergy (α := ℚ) [0, 1] [0, 55/2]).midiEnergy.getD 36 0 =
      ((List.range' 1 (([0, 1] : List ℚ).length - 1)).map (fun bin =>
        if chromaBinKeeps [0, 55/2] bin ∧
            (frequencyToMidi (([0, 55/2] : List ℚ).getD bin 0)).toNat = 36
        then ([0, 1] : List ℚ).getD bin 0 else 0)).sum ∧
    (spectrumToChromaAndMidiEnergy (α := ℚ) [0, 1] [0, 55/2]).chroma =
      chromaPeakNormalize ((List.range 12).map (fun pc =>
        ((List.range' 1 (([0, 1] : List ℚ).length - 1)).map (fun bin =>
          if chromaBinKeeps [0, 55/2] bin ∧
              ((frequencyToMidi (([0, 55/2] : List ℚ).getD bin 0) % 12 + 12) % 12).toNat = pc
          then ([0, 1] : List ℚ).getD bin 0 else 0)).sum)) :=
  ⟨(spectrumToChroma_discards [0, 1] [0, 55/2]).1 36 (by norm_num),
   (spectrumToChroma_discards [0, 1] [0, 55/2]).2⟩

/-- C4 (counterexample): a spectrum whose only energetic bin sits at
`27.5 Hz` (in band, rounded semitone `21 < 36`).  The claim predicts the
energy is accumulated at the clamp boundary (semitone 36, hence also chroma
slot 0); the code discards it, so the function differs from its clamping
variant at this input. -/
theorem spectrumToChroma_clamp_cx :
    spectrumToChromaAndMidiEnergy (α := ℚ) [0, 1] [0, 55/2] ≠
      spectrumToChromaClamped (α := ℚ) [0, 1] [0, 55/2] := by
  have hband : ¬ (((55/2 : ℚ)) < 27.5 ∨ ((55/2 : ℚ)) > 5000) := by norm_num
  have hmid : (spectrumToChromaAndMidiEnergy (α := ℚ) [0, 1] [0, 55/2]).midiEnergy.getD 36 0
      = 0 := by
    rw [spectrumToChroma_midiEnergy_unfold,
      show List.range' 1 (([0, 1] : List ℚ).length - 1) = [1] from rfl,
      List.foldl_cons, List.foldl_nil]
    have hstep : chromaAccumStep (α := ℚ) [0, 1] [0, 55/2]
        (List.replicate 12 0, List.replicate 128 0) 1 =
        (List.replicate 12 0, List.replicate 128 0) := by
      simp only [chromaAccumStep,
        show (([0, 55/2] : List ℚ)).getD 1 0 = 55/2 from rfl]
      rw [if_neg hband, frequencyToMidi_at_275,
        if_pos (show (21 : ℤ) < 36 ∨ (21 : ℤ) > 96 from Or.inl (by norm_num))]
    rw [hstep]
    exact getD_replicate_self 0 128 36
  have hmid2 : (spectrumToChromaClamped (α := ℚ) [0, 1] [0, 55/2]).midiEnergy.getD 36 0
      = 1 := by
    rw [spectrumToChromaClamped_midiEnergy_unfold,
      show List.range' 1 (([0, 1] : List ℚ).length - 1) = [1] from rfl,
      List.foldl_cons, List.foldl_nil]
    simp only [chromaAccumStepClamped,
      show (([0, 55/2] : List ℚ)).getD 1 0 = 55/2 from rfl]
    rw [if_neg hband, frequencyToMidi_at_275,
      show clamp (21 : ℤ) 36 96 = 36 from by rw [clamp]; decide]
    rw [show ((36 : ℤ)).toNat = 36 from rfl]
    rw [getD_set_self (by rw [List.length_replicate]; norm_num)]
    rw [getD_replicate_self, zero_add]
    rfl
  intro hcontra
  have h := congrArg (fun r : ChromaMidi ℚ => r.midiEnergy.getD 36 0) hcontra
  simp only at h
  rw [hmid, hmid2] at h
  exact absurd h (by norm_num)

/-! ### C7: input validation of the analysis entry point -/

/-- The clamped atonality score always lies in `[0, 1]`. -/
lemma scoreAtonality_range (params : AtonalityParams) :
    0 ≤ (scoreAtonality params).atonalScore ∧ (scoreAtonality params).atonalScore ≤ 1 := by
  simp only [scoreAtonality]
  exact ⟨le_max_left 0 _, max_le (by norm_num) (min_le_left _ _)⟩

/-- The pipeline body always produces an atonality score in `[0, 1]`
(either the clamped blend, or the initial `1`). -/
lemma analyzeCore_atonalScore_range (audioBuffer : List ℝ) (sampleRate : ℚ)
    (options : AnalysisOptions) :
    0 ≤ (analyzeCore audioBuffer sampleRate options).atonalScore ∧
      (analyzeCore audioBuffer sampleRate options).atonalScore ≤ 1 := by
  simp only [analyzeCore]
  cases hda : options.detectAtonal
  · simp only [hda, Bool.false_eq_true, if_false, createEmptyAnalysisResult]
    norm_num
  · simp only [hda, if_true]
    exact scoreAtonality_range _

/-- C7 (confirmed): `analyzeSampleToMidi` raises its `InvalidInput`
`TypeError` exactly when the input's `audioBuffer` is not a `Float32Array`
or its `sampleRate` is not a finite positive number; on every input passing
both checks it returns an `AnalysisResult` (no raise), whose atonality
score moreover lies in `[0, 1]`. -/
theorem analyzeSampleToMidi_validation (input : AnalysisJobInput) :
    ((∃ r, analyzeSampleToMidi input = Except.ok r) ↔
      (isFloat32Array input.audioBuffer ∧ isPositiveFiniteRate input.sampleRate)) ∧
    (∀ r, analyzeSampleToMidi input = Except.ok r →
      0 ≤ r.atonalScore ∧ r.atonalScore ≤ 1) := by
  obtain ⟨ab, srv, opts⟩ := input
  cases ab with
  | float32Array samples =>
    cases srv with
    | number n =>
      cases n with
      | finite q =>
        by_cases hq : q ≤ 0
        · refine ⟨⟨?_, ?_⟩, ?_⟩
          · rintro ⟨r, hr⟩
            simp only [analyzeSampleToMidi, if_pos hq] at hr
            exact Except.noConfusion hr
          · rintro ⟨-, hpos⟩
            exact absurd (show (0 : ℚ) < q from hpos) (not_lt.mpr hq)
          · intro r hr
            simp only [analyzeSampleToMidi, if_pos hq] at hr
            exact Except.noConfusion hr
        · push_neg at hq
          refine ⟨⟨fun _ => ⟨trivial, hq⟩, fun _ => ?_⟩, ?_⟩
          · exact ⟨analyzeCore samples q (mergeAnalysisOptions opts), by
              simp only [analyzeSampleToMidi, if_neg (not_le.mpr hq)]⟩
          · intro r hr
            simp only [analyzeSampleToMidi, if_neg (not_le.mpr hq),
              Except.ok.injEq] at hr
            rw [← hr]
            exact analyzeCore_atonalScore_range samples q (mergeAnalysisOptions opts)
      | nan =>
        refine ⟨⟨?_, ?_⟩, ?_⟩
        · rintro ⟨r, hr⟩
          simp only [analyzeSampleToMidi] at hr
          exact Except.noConfusion hr
        · rintro ⟨-, hpos⟩
          exact absurd hpos (by simp [isPositiveFiniteRate])
        · intro r hr
          simp only [analyzeSampleToMidi] at hr
          exact Except.noConfusion hr
      | posInf =>
        refine ⟨⟨?_, ?_⟩, ?_⟩
        · rintro ⟨r, hr⟩
          simp only [analyzeSampleToMidi] at hr
          exact Except.noConfusion hr
        · rintro ⟨-, hpos⟩
          exact absurd hpos (by simp [isPositiveFiniteRate])
        · intro r hr
          simp only [analyzeSampleToMidi] at hr
          exact Except.noConfusion hr
      | negInf =>
        refine ⟨⟨?_, ?_⟩, ?_⟩
        · rintro ⟨r, hr⟩
          simp only [analyzeSampleToMidi] at hr
          exact Except.noConfusion hr
        · rintro ⟨-, hpos⟩
          exact absurd hpos (by simp [isPositiveFiniteRate])
        · intro r hr
          simp only [analyzeSampleToMidi] at hr
          exact Except.noConfusion hr
    | float32Array other =>
      refine ⟨⟨?_, ?_⟩, ?_⟩
      · rintro ⟨r, hr⟩
        simp only [analyzeSampleToMidi] at hr
        exact Except.noConfusion hr
      · rintro ⟨-, hpos⟩
        exact absurd hpos (by simp [isPositiveFiniteRate])
      · intro r hr
        simp only [analyzeSampleToMidi] at hr
        exact Except.noConfusion hr
    | jsUndefined =>
      refine ⟨⟨?_, ?_⟩, ?_⟩
      · rintro ⟨r, hr⟩
        simp only [analyzeSampleToMidi] at hr
        exact Except.noConfusion hr
      · rintro ⟨-, hpos⟩
        exact absurd hpos (by simp [isPositiveFiniteRate])
      · intro r hr
        simp only [analyzeSampleToMidi] at hr
        exact Except.noConfusion hr
    | otherValue =>
      refine ⟨⟨?_, ?_⟩, ?_⟩
      · rintro ⟨r, hr⟩
        simp only [analyzeSampleToMidi] at hr
        exact Except.noConfusion hr
      · rintro ⟨-, hpos⟩
        exact absurd hpos (by simp [isPositiveFiniteRate])
      · intro r hr
        simp only [analyzeSampleToMidi] at hr
        exact Except.noConfusion hr
  | number n =>
    refine ⟨⟨?_, ?_⟩, ?_⟩
    · rintro ⟨r, hr⟩
      simp only [analyzeSampleToMidi] at hr
      exact Except.noConfusion hr
    · rintro ⟨hf, -⟩
      exact absurd hf (by simp [isFloat32Array])
    · intro r hr
      simp only [analyzeSampleToMidi] at hr
      exact Except.noConfusion hr
  | jsUndefined =>
    refine ⟨⟨?_, ?_⟩, ?_⟩
    · rintro ⟨r, hr⟩
      simp only [analyzeSampleToMidi] at hr
      exact Except.noConfusion hr
    · rintro ⟨hf, -⟩
      exact absurd hf (by simp [isFloat32Array])
    · intro r hr
      simp only [analyzeSampleToMidi] at hr
      exact Except.noConfusion hr
  | otherValue =>
    refine ⟨⟨?_, ?_⟩, ?_⟩
    · rintro ⟨r, hr⟩
      simp only [analyzeSampleToMidi] at hr
      exact Except.noConfusion hr
    · rintro ⟨hf, -⟩
      exact absurd hf (by simp [isFloat32Array])
    · intro r hr
      simp only [analyzeSampleToMidi] at hr
      exact Except.noConfusion hr

/-- Witness for C7: the empty one-channel buffer at sample rate 1 passes
validation and yields a result. -/
theorem analyzeSampleToMidi_validation_witness :
    (∃ r, analyzeSampleToMidi
      ⟨JSValue.float32Array [], JSValue.number (JSNumber.finite 1), none⟩ =
        Except.ok r) ∧
    (0 ≤ (analyzeCore [] 1 (mergeAnalysisOptions none)).atonalScore ∧
      (analyzeCore [] 1 (mergeAnalysisOptions none)).atonalScore ≤ 1) :=
  ⟨(analyzeSampleToMidi_validation
      ⟨JSValue.float32Array [], JSValue.number (JSNumber.finite 1), none⟩).1.mpr
      ⟨trivial, by norm_num [isPositiveFiniteRate]⟩,
   (analyzeSampleToMidi_validation
      ⟨JSValue.float32Array [], JSValue.number (JSNumber.finite 1), none⟩).2
      (analyzeCore [] 1 (mergeAnalysisOptions none)) (by
      simp only [analyzeSampleToMidi]
      rw [if_neg (by norm_num : ¬ (1 : ℚ) ≤ 0)])⟩

/-! ### C10: the caller's buffer is never written -/

/-- Allocation appends, so an existing array is unchanged. -/
lemma storeAlloc_getD {σ : Store} {id : ℕ} (arr : List ℝ) (h : id < σ.length) :
    (storeAlloc σ arr).1.getD id [] = σ.getD id [] := by
  simp only [storeAlloc]
  rw [List.getD_eq_getElem?_getD, List.getD_eq_getElem?_getD,
    List.getElem?_append, if_pos h]

/-- Allocation grows the store by one array. -/
lemma storeAlloc_length (σ : Store) (arr : List ℝ) :
    (storeAlloc σ arr).1.length = σ.length + 1 := by
  simp [storeAlloc]

/-- Writing into one array leaves every other array unchanged. -/
lemma storeWrite_getD_ne {σ : Store} {id tgt : ℕ} (i : ℕ) (v : ℝ) (h : id ≠ tgt) :
    (storeWrite σ id i v).getD tgt [] = σ.getD tgt [] := by
  simp only [storeWrite]
  exact getD_set_ne h

/-- Writing preserves the number of arrays. -/
lemma storeWrite_length (σ : Store) (id i : ℕ) (v : ℝ) :
    (storeWrite σ id i v).length = σ.length := by
  simp [storeWrite]

/-- A whole loop of writes into one array leaves every other array
unchanged. -/
lemma foldl_storeWrite_getD (outId tgt : ℕ) (h : outId ≠ tgt) (g : ℕ → ℝ) :
    ∀ (l : List ℕ) (σ : Store),
      (l.foldl (fun σ i => storeWrite σ outId i (g i)) σ).getD tgt [] = σ.getD tgt []
  | [], _ => rfl
  | i :: t, σ => by
    rw [List.foldl_cons, foldl_storeWrite_getD outId tgt h g t,
      storeWrite_getD_ne i (g i) h]

/-- A whole loop of writes preserves the number of arrays. -/
lemma foldl_storeWrite_length (outId : ℕ) (g : ℕ → ℝ) :
    ∀ (l : List ℕ) (σ : Store),
      (l.foldl (fun σ i => storeWrite σ outId i (g i)) σ).length = σ.length
  | [], _ => rfl
  | i :: t, σ => by
    rw [List.foldl_cons, foldl_storeWrite_length outId g t, storeWrite_length]

/-- Embedding of `toMono` only allocates (a fresh copy): existing arrays unchanged. -/
lemma toMonoH_getD {σ : Store} {bufId tgt : ℕ} (h : tgt < σ.length) :
    (toMonoH σ bufId).1.getD tgt [] = σ.getD tgt [] :=
  storeAlloc_getD _ h

/-- Embedding of `toMono` grows the store by one. -/
lemma toMonoH_length (σ : Store) (bufId : ℕ) :
    (toMonoH σ bufId).1.length = σ.length + 1 :=
  storeAlloc_length _ _

/-- Embedding of `normalizePeak` allocates its output and writes only into it: existing
arrays unchanged. -/
lemma normalizePeakH_getD {σ : Store} {srcId tgt : ℕ} (targetPeak : ℝ)
    (h : tgt < σ.length) :
    (normalizePeakH σ srcId targetPeak).1.getD tgt [] = σ.getD tgt [] := by
  simp only [normalizePeakH]
  by_cases hp : normalizePeakScan (storeRead σ srcId) = 0
  · rw [if_pos hp]
    exact storeAlloc_getD _ h
  · rw [if_neg hp]
    simp only [storeAlloc]
    rw [foldl_storeWrite_getD σ.length tgt (by omega) _ _ _]
    rw [List.getD_eq_getElem?_getD, List.getD_eq_getElem?_getD,
      List.getElem?_append, if_pos h]

/-- Embedding of `normalizePeak` grows the store by one. -/
lemma normalizePeakH_length (σ : Store) (srcId : ℕ) (targetPeak : ℝ) :
    (normalizePeakH σ srcId targetPeak).1.length = σ.length + 1 := by
  simp only [normalizePeakH]
  by_cases hp : normalizePeakScan (storeRead σ srcId) = 0
  · rw [if_pos hp]
    exact storeAlloc_length _ _
  · rw [if_neg hp]
    simp only [storeAlloc]
    rw [foldl_storeWrite_length, List.length_append, List.length_cons, List.length_nil]

/-- The HPSS stub only allocates: existing arrays unchanged. -/
lemma runHPSSStubH_getD {σ : Store} {normId tgt : ℕ} (h : tgt < σ.length) :
    (runHPSSStubH σ normId).1.getD tgt [] = σ.getD tgt [] := by
  simp only [runHPSSStubH]
  rw [storeAlloc_getD _ (by rw [storeAlloc_length]; omega), storeAlloc_getD _ h]

/-- Embedding of `preprocessAudio` never writes an array that existed at entry — in
particular the caller's input array. -/
lemma preprocessAudioH_getD {σ : Store} {bufId tgt : ℕ} (doHPSS : Bool)
    (h : tgt < σ.length) :
    (preprocessAudioH σ bufId doHPSS).1.getD tgt [] = σ.getD tgt [] := by
  simp only [preprocessAudioH]
  have hmono : tgt < (toMonoH σ bufId).1.length := by
    rw [toMonoH_length]; omega
  have hnorm : tgt < (normalizePeakH (toMonoH σ bufId).1 (toMonoH σ bufId).2 (49/50)).1.length := by
    rw [normalizePeakH_length]; omega
  cases doHPSS
  · simp only [Bool.false_eq_true, if_false]
    rw [normalizePeakH_getD _ hmono, toMonoH_getD h]
  · simp only [if_true]
    rw [runHPSSStubH_getD hnorm, normalizePeakH_getD _ hmono, toMonoH_getD h]

/-- C10 (confirmed): `analyzeSampleToMidi` leaves the caller's
`audioBuffer` unchanged — after the call, the array at the caller's id
holds exactly the samples it held before.  The only stage that receives the
caller's array is preprocessing, which immediately copies it (`toMono`)
and writes only into freshly allocated arrays; every later stage receives
the freshly allocated normalized buffer, never the caller's array. -/
theorem analyzeSampleToMidiH_preserves_input (σ : Store) (bufId : ℕ)
    (sampleRate : ℚ) (options : Option PartialAnalysisOptions)
    (h : bufId < σ.length) :
    (analyzeSampleToMidiH σ bufId sampleRate options).1.getD bufId [] =
      σ.getD bufId [] := by
  simp only [analyzeSampleToMidiH]
  exact preprocessAudioH_getD _ h

/-- Witness for C10: a one-array store holding the sample list `[1]`. -/
theorem analyzeSampleToMidiH_preserves_input_witness :
    (analyzeSampleToMidiH [[(1 : ℝ)]] 0 1 none).1.getD 0 [] =
      ([[(1 : ℝ)]] : Store).getD 0 [] :=
  analyzeSampleToMidiH_preserves_input [[(1 : ℝ)]] 0 1 none (by norm_num)

end RSA
